import Mathlib

/-!
# walley: an encrypted password store

A shallow embedding of the store manager of `src/walley.hpp` / `src/walley.cpp`,
of the cipher wrapper of `src/aes.cpp`, of the codec of `src/base64.cpp` and of the file
helpers of `src/auxiliary.cpp`.

* `std::string` fields of records are `String`; binary blobs (passwords, cipher
  text, the serialised document) are lists of byte values, `Bytes`.
* `std::vector` is `List`, `std::set< std::string >` and
  `std::map< std::string, std::string >` are lists kept in key order by
  `std_set_insert` / `std_map_insert`.
* A member function that mutates `*this` and may throw returns the new state
  together with `Except exception result`: the state a caller observes after
  the exception left the function is the first component.
* Library calls whose code is outside the repository (the JSON reader and
  writer, the textual form of `ptime`, the AES block function) are fields of
  `Extern`; the random uuid drawn by `boost::uuids::random_generator` is an
  explicit argument of the functions that draw one, and so are the path drawn by
  `unique_path` and the characters drawn by `secure_erase`.
* The file system is a value of `disk`, passed in and returned by the functions that
  touch files.
-/

namespace walley

/-- A byte string: the contents of a `std::string` used as a blob. -/
abbrev Bytes := List Nat

/-- The exceptions that leave the functions of the store:
`auxiliary::file_access_error`, `corrupted_input_error`, `invalid_lookup_error`
(all three are `std::runtime_error`s of the repository),
`CryptoPP::InvalidArgument`, which the cipher library throws, and
`boost::archive::iterators::dataflow_exception`, which the base64 iterators throw. The
last value stands for a call whose behaviour the language leaves undefined: it throws
nothing and has no result to speak of. -/
inductive error where
  | file_access_error
  | corrupted_input_error
  | invalid_lookup_error
  | invalid_argument
  | dataflow_exception
  | undefined_behaviour
deriving DecidableEq, Repr

deriving instance DecidableEq for Except

/-- The value of a `boost::posix_time::ptime`: its tick count. -/
structure ptime where
  ticks : Int
deriving DecidableEq, Repr

/-- The value of a default constructed `ptime`. -/
def not_a_date_time : ptime := ⟨2 ^ 63 - 2⟩

/-! ## Records (`walley.hpp`) -/

/-- Login credential storage (`struct login_type`). -/
structure login_type where
  uid : String
  title : String
  category : String
  username : String
  password : String
  url : String
  last_change : ptime
deriving DecidableEq, Repr

/-- Textual note storage (`struct note_type`). -/
structure note_type where
  uid : String
  title : String
  category : String
  content : String
deriving DecidableEq, Repr

/-- Binary data storage (`struct file_type`). -/
structure file_type where
  uid : String
  title : String
  category : String
  content : String
  mapped_file : String
deriving DecidableEq, Repr

/-- Contact data storage (`struct contact_type`). -/
structure contact_type where
  uid : String
  category : String
  first_name : String
  last_name : String
  email : String
  phone : String
  street : String
  zip : String
  city : String
  country : String
  comment : String
deriving DecidableEq, Repr

/-- The record `login_type()`. -/
def login_type.init : login_type := ⟨"", "", "", "", "", "", not_a_date_time⟩

/-- The record `note_type()`. -/
def note_type.init : note_type := ⟨"", "", "", ""⟩

/-- The record `file_type()`. -/
def file_type.init : file_type := ⟨"", "", "", "", ""⟩

/-- The record `contact_type()`. -/
def contact_type.init : contact_type := ⟨"", "", "", "", "", "", "", "", "", "", ""⟩

/-- Member `contact_type::title`: returns `last_name, first_name`. -/
def contact_type.title (self : contact_type) : String :=
  self.last_name ++ ", " ++ self.first_name

/-- The private members of `struct container`. -/
structure container where
  logins : List login_type
  notes : List note_type
  files : List file_type
  contacts : List contact_type
deriving DecidableEq, Repr

/-- A freshly constructed store. -/
def container.init : container := ⟨[], [], [], []⟩

/-- Member `container::clear`. -/
def container.clear (_self : container) : container := ⟨[], [], [], []⟩

/-- The enumeration `container::content_type`, by its underlying value. -/
abbrev content_type := Nat

def TYPE_LOGIN : content_type := 0
def TYPE_NOTE : content_type := 1
def TYPE_FILE : content_type := 2
def TYPE_CONTACT : content_type := 3

/-! ## Standard containers -/

/-- The call `output.insert(x)` on a `std::set< std::string >`, kept as its ascending
list of elements: an element equivalent to `x` keeps `x` out. -/
def std_set_insert (x : String) : List String → List String
  | [] => [x]
  | y :: ys =>
    if x < y then x :: y :: ys
    else if y < x then y :: std_set_insert x ys
    else y :: ys

/-- The call `output.insert(std::make_pair(k, v))` on a
`std::map< std::string, std::string >`, kept as its ascending list of entries: an entry
whose key is equivalent to `k` is left as it is. -/
def std_map_insert (k v : String) : List (String × String) → List (String × String)
  | [] => [(k, v)]
  | e :: es =>
    if k < e.1 then (k, v) :: e :: es
    else if e.1 < k then e :: std_map_insert k v es
    else e :: es

/-! ## Identifiers -/

/-- A `boost::uuids::uuid`: its sixteen bytes (a missing byte reads as zero). -/
abbrev uuid := List Nat

/-- The digits a stream in `std::hex` mode writes. -/
def hex_digits : List Char := "0123456789abcdef".data

/-- One byte in two lower-case hexadecimal digits. -/
def hex_byte (b : Nat) : List Char :=
  [hex_digits.getD (b / 16 % 16) '0', hex_digits.getD (b % 16) '0']

/-- The characters of bytes `i, i+1, ...` (`n` of them) of a uuid, with the dash that
follows bytes 3, 5, 7 and 9. -/
def uuid_chars : Nat → Nat → uuid → List Char
  | 0, _, _ => []
  | n + 1, i, u =>
    hex_byte (u.getD i 0) ++ (if i = 3 ∨ i = 5 ∨ i = 7 ∨ i = 9 then ['-'] else [])
      ++ uuid_chars n (i + 1) u

/-- The string `boost::lexical_cast< std::string >(uuid)`. -/
def uuid_to_string (u : uuid) : String := String.mk (uuid_chars 16 0 u)

/-! ## Lookup and update of one collection

The four lookups and the four setters of `container` are the same loop over a different
vector; the loop is written once, over the accessor of the `uid` member. -/

/-- The loop of `container::login(std::string const &uid) const` and its three siblings:
the first element whose `uid` is the requested one, `invalid_lookup_error` when the loop
ends without one. -/
def lookup {ρ : Type} (uid_of : ρ → String) : List ρ → String → Except error ρ
  | [], _ => .error .invalid_lookup_error
  | value :: rest, uid =>
    if uid_of value = uid then .ok value else lookup uid_of rest uid

/-- The loop `BOOST_FOREACH (login_type &other, logins)` of the setters: the first element
whose `uid` is `value.uid` is overwritten by `value`; `none` when the loop ends without a
match. -/
def assign_first {ρ : Type} (uid_of : ρ → String) (value : ρ) : List ρ → Option (List ρ)
  | [] => none
  | other :: rest =>
    if uid_of value = uid_of other then some (value :: rest)
    else (assign_first uid_of value rest).map (fun l => other :: l)

/-- The body of `container::login(login_type const &value)` and its three siblings on one
vector: update in place for a non-empty `uid`, otherwise `push_back` and assignment of a
new identifier to `back().uid`. -/
def store {ρ : Type} (uid_of : ρ → String) (set_uid : ρ → String → ρ)
    (items : List ρ) (value : ρ) (u : uuid) : List ρ × Except error String :=
  if uid_of value ≠ "" then
    match assign_first uid_of value items with
    | some items' => (items', .ok (uid_of value))
    | none => (items, .error .invalid_lookup_error)
  else
    (items ++ [set_uid value (uuid_to_string u)], .ok (uuid_to_string u))

/-- Member `container::login(std::string const &uid) const`. -/
def container.login (self : container) (uid : String) : Except error login_type :=
  lookup login_type.uid self.logins uid

/-- Member `container::note(std::string const &uid) const`. -/
def container.note (self : container) (uid : String) : Except error note_type :=
  lookup note_type.uid self.notes uid

/-- Member `container::file(std::string const &uid) const`. -/
def container.file (self : container) (uid : String) : Except error file_type :=
  lookup file_type.uid self.files uid

/-- Member `container::contact(std::string const &uid) const`. -/
def container.contact (self : container) (uid : String) : Except error contact_type :=
  lookup contact_type.uid self.contacts uid

/-- Member `container::login(login_type const &value)`; `u` is the uuid the random
generator returns when one is drawn. -/
def container.set_login (self : container) (value : login_type) (u : uuid) :
    container × Except error String :=
  let r := store login_type.uid (fun v s => { v with uid := s }) self.logins value u
  ({ self with logins := r.1 }, r.2)

/-- Member `container::note(note_type const &value)`. -/
def container.set_note (self : container) (value : note_type) (u : uuid) :
    container × Except error String :=
  let r := store note_type.uid (fun v s => { v with uid := s }) self.notes value u
  ({ self with notes := r.1 }, r.2)

/-- Member `container::file(file_type const &value)`. -/
def container.set_file (self : container) (value : file_type) (u : uuid) :
    container × Except error String :=
  let r := store file_type.uid (fun v s => { v with uid := s }) self.files value u
  ({ self with files := r.1 }, r.2)

/-- Member `container::contact(contact_type const &value)`. -/
def container.set_contact (self : container) (value : contact_type) (u : uuid) :
    container × Except error String :=
  let r := store contact_type.uid (fun v s => { v with uid := s }) self.contacts value u
  ({ self with contacts := r.1 }, r.2)

/-- Member `container::categories`. -/
def container.categories (self : container) (t : content_type) :
    Except error (List String) :=
  if t = TYPE_LOGIN then
    .ok (self.logins.foldl (fun output value => std_set_insert value.category output) [])
  else if t = TYPE_NOTE then
    .ok (self.notes.foldl (fun output value => std_set_insert value.category output) [])
  else if t = TYPE_FILE then
    .ok (self.files.foldl (fun output value => std_set_insert value.category output) [])
  else if t = TYPE_CONTACT then
    .ok (self.contacts.foldl (fun output value => std_set_insert value.category output) [])
  else .error .invalid_lookup_error

/-- Member `container::elements_by_category`. -/
def container.elements_by_category (self : container) (t : content_type) (cat : String) :
    Except error (List (String × String)) :=
  if t = TYPE_LOGIN then
    .ok (self.logins.foldl (fun output value =>
      if value.category = cat then std_map_insert value.uid value.title output
      else output) [])
  else if t = TYPE_NOTE then
    .ok (self.notes.foldl (fun output value =>
      if value.category = cat then std_map_insert value.uid value.title output
      else output) [])
  else if t = TYPE_FILE then
    .ok (self.files.foldl (fun output value =>
      if value.category = cat then std_map_insert value.uid value.title output
      else output) [])
  else if t = TYPE_CONTACT then
    .ok (self.contacts.foldl (fun output value =>
      if value.category = cat then std_map_insert value.uid value.title output
      else output) [])
  else .error .invalid_lookup_error

/-! ## The four kinds at once

The overloads of `container` are told apart by the name of the function and the type of
its argument; `kind` and `element` are that choice as a value, so that a statement about
"every kind" is one statement. -/

/-- The four recognised kinds of record. -/
inductive kind where
  | login
  | note
  | file
  | contact
deriving DecidableEq, Repr

/-- The enumerator of `container::content_type` for a kind. -/
def kind.content_type : kind → content_type
  | .login => TYPE_LOGIN
  | .note => TYPE_NOTE
  | .file => TYPE_FILE
  | .contact => TYPE_CONTACT

/-- A record of one of the four kinds. -/
inductive element where
  | login (v : login_type)
  | note (v : note_type)
  | file (v : file_type)
  | contact (v : contact_type)
deriving DecidableEq, Repr

def element.kind : element → kind
  | .login _ => .login
  | .note _ => .note
  | .file _ => .file
  | .contact _ => .contact

def element.uid : element → String
  | .login v => v.uid
  | .note v => v.uid
  | .file v => v.uid
  | .contact v => v.uid

def element.category : element → String
  | .login v => v.category
  | .note v => v.category
  | .file v => v.category
  | .contact v => v.category

/-- The record with its `uid` member overwritten. -/
def element.with_uid : element → String → element
  | .login v, s => .login { v with uid := s }
  | .note v, s => .note { v with uid := s }
  | .file v, s => .file { v with uid := s }
  | .contact v, s => .contact { v with uid := s }

/-- The vector of the given kind, its records tagged. -/
def container.elements (self : container) : kind → List element
  | .login => self.logins.map .login
  | .note => self.notes.map .note
  | .file => self.files.map .file
  | .contact => self.contacts.map .contact

/-- The lookup overload of the given kind. -/
def container.get (self : container) (k : kind) (uid : String) : Except error element :=
  match k with
  | .login => (self.login uid).map .login
  | .note => (self.note uid).map .note
  | .file => (self.file uid).map .file
  | .contact => (self.contact uid).map .contact

/-- The setter overload selected by the type of the record. -/
def container.upsert (self : container) (value : element) (u : uuid) :
    container × Except error String :=
  match value with
  | .login v => self.set_login v u
  | .note v => self.set_note v u
  | .file v => self.set_file v u
  | .contact v => self.set_contact v u

/-- No two records of one vector of the store have the same `uid`. -/
def container.uids_distinct (self : container) : Prop :=
  ∀ k : kind, ((self.elements k).map element.uid).Nodup

/-! ## Property trees (`boost::property_tree::ptree`) -/

/-- A `ptree`: the node's own data and its children in sequence, each under a key. -/
inductive ptree where
  | mk (data : String) (children : List (String × ptree))

/-- The node's data (`ptree::data`). -/
def ptree.data : ptree → String
  | .mk d _ => d

/-- The node's children in sequence (`begin()` .. `end()`). -/
def ptree.children : ptree → List (String × ptree)
  | .mk _ cs => cs

/-- A default constructed `ptree`. -/
def ptree.init : ptree := .mk "" []

/-- The exceptions raised inside the `try` block of `container::load`; all of them are
`std::exception`s. -/
inductive ptree_error where
  | json_parser_error
  | ptree_bad_path
  | ptree_bad_data
deriving DecidableEq, Repr

/-- The call `tree.get_child(key)` for a key without a path separator: the first child
under that key, `ptree_bad_path` when there is none. -/
def ptree.get_child (self : ptree) (key : String) : Except ptree_error ptree :=
  match self.children.find? (fun kv => kv.1 == key) with
  | some kv => .ok kv.2
  | none => .error .ptree_bad_path

/-- The call `tree.get< std::string >(key)`: the data of that child. -/
def ptree.get_string (self : ptree) (key : String) : Except ptree_error String :=
  match self.get_child key with
  | .ok sub => .ok sub.data
  | .error e => .error e

/-- The call `tree.push_back(std::make_pair(key, child))`. -/
def ptree.push_back (self : ptree) (key : String) (child : ptree) : ptree :=
  .mk self.data (self.children ++ [(key, child)])

/-- The call `tree.add_child(key, child)` for a key without a path separator: the
child is appended, also when the key is already in use. -/
def ptree.add_child (self : ptree) (key : String) (child : ptree) : ptree :=
  .mk self.data (self.children ++ [(key, child)])

/-- The data of the first child under `key` set to `value`. -/
def put_first (key value : String) : List (String × ptree) → List (String × ptree)
  | [] => []
  | kv :: rest =>
    if kv.1 == key then (kv.1, .mk value kv.2.children) :: rest
    else kv :: put_first key value rest

/-- The call `tree.put(key, value)` for a string value and a key without a path
separator: the data of the child under that key is set, and the child is appended first
when there is none. -/
def ptree.put (self : ptree) (key value : String) : ptree :=
  if self.children.any (fun kv => kv.1 == key) then
    .mk self.data (put_first key value self.children)
  else .mk self.data (self.children ++ [(key, .mk value [])])

/-! ## Library code outside the repository -/

/-- The library functions the store calls and whose code is not part of the repository.
* `read_json`: `pt::read_json` on a document, `none` when it throws
  `json_parser_error`;
* `write_json`: the document `pt::write_json` writes;
* `ptime_to_string`, `ptime_of_string`: the stream translator `put` and `get< ptime >`
  use, `none` when the text is no time;
* `aes_encrypt_block`, `aes_decrypt_block`: `CryptoPP::AES::Encryption` and
  `CryptoPP::AES::Decryption` on one block, under a key. -/
structure Extern where
  read_json : Bytes → Option ptree
  write_json : ptree → Bytes
  ptime_to_string : ptime → String
  ptime_of_string : String → Option ptime
  aes_encrypt_block : Bytes → Bytes → Bytes
  aes_decrypt_block : Bytes → Bytes → Bytes

/-- The call `tree.get< boost::posix_time::ptime >(key)`: `ptree_bad_path` without such a
child, `ptree_bad_data` when its data does not translate. -/
def ptree.get_ptime (X : Extern) (self : ptree) (key : String) : Except ptree_error ptime :=
  match self.get_child key with
  | .error e => .error e
  | .ok sub =>
    match X.ptime_of_string sub.data with
    | some t => .ok t
    | none => .error .ptree_bad_data

/-! ## The cipher wrapper (`aes.cpp`) -/

namespace aes

/-- The constant `CryptoPP::AES::BLOCKSIZE`. -/
def BLOCKSIZE : Nat := 16

/-- Function `create_key`: the bytes of the password, resized to `key_size = 32` with
zero bytes. -/
def create_key (password : Bytes) : Bytes :=
  password.take 32 ++ List.replicate (32 - password.length) 0

/-- The initialisation vector `iv(CryptoPP::AES::BLOCKSIZE, 0x0)`. -/
def iv : Bytes := List.replicate BLOCKSIZE 0

/-- The library's `xorbuf(buf, mask, count)` with `count` the length of `mask`: the
leading bytes of `buf` are xor-ed with `mask`, the others stay. -/
def xorbuf : Bytes → Bytes → Bytes
  | a :: as, b :: bs => (a ^^^ b) :: xorbuf as bs
  | as, [] => as
  | [], _ :: _ => []

/-- What `CryptoPP::CBC_CTS_Mode_ExternalCipher::Encryption` behind a
`StreamTransformationFilter` writes to the sink for the bytes put into it, by `Put` and
`MessageEnd`. `E` is the block cipher under the key and `reg` the chaining register. The
filter keeps back a last portion of 17 to 32 bytes for `ProcessLastBlock`, which steals
from the block before the last; a message of at most one block has no such block and
`ProcessLastBlock` throws `InvalidArgument`; nothing is written for an empty message.
The first argument bounds the number of blocks and is the length of the message. -/
def cbc_cts_encrypt (E : Bytes → Bytes) : Nat → Bytes → Bytes → Except error Bytes
  | 0, _, _ => .ok []
  | n + 1, reg, input =>
    if input.length = 0 then .ok []
    else if input.length ≤ BLOCKSIZE then .error .invalid_argument
    else if input.length ≤ 2 * BLOCKSIZE then
      let reg1 := E (xorbuf reg (input.take BLOCKSIZE))
      let last := input.drop BLOCKSIZE
      let reg2 := E (xorbuf reg1 last)
      .ok (reg2 ++ reg1.take last.length)
    else
      let reg1 := E (xorbuf reg (input.take BLOCKSIZE))
      match cbc_cts_encrypt E n reg1 (input.drop BLOCKSIZE) with
      | .ok out => .ok (reg1 ++ out)
      | .error e => .error e

/-- What `CryptoPP::CBC_CTS_Mode_ExternalCipher::Decryption` behind a
`StreamTransformationFilter` writes to the sink. `D` is the inverse block cipher under
the key. A message of at most one block is decrypted against the register
(`stealIV`); no length is refused. -/
def cbc_cts_decrypt (D : Bytes → Bytes) : Nat → Bytes → Bytes → Bytes
  | 0, _, _ => []
  | n + 1, reg, input =>
    if input.length = 0 then []
    else if input.length ≤ BLOCKSIZE then
      (xorbuf (D reg) input).take input.length
    else if input.length ≤ 2 * BLOCKSIZE then
      let pn2 := input.take BLOCKSIZE
      let pn1 := input.drop BLOCKSIZE
      let temp := xorbuf (D pn2) pn1
      let temp2 := pn1 ++ temp.drop pn1.length
      xorbuf (D temp2) reg ++ temp.take pn1.length
    else
      let c := input.take BLOCKSIZE
      xorbuf (D c) reg ++ cbc_cts_decrypt D n c (input.drop BLOCKSIZE)

/-- Function `aes::encrypt`. -/
def encrypt (X : Extern) (password input : Bytes) : Except error Bytes :=
  cbc_cts_encrypt (X.aes_encrypt_block (create_key password)) input.length iv input

/-- Function `aes::decrypt`. -/
def decrypt (X : Extern) (password input : Bytes) : Bytes :=
  cbc_cts_decrypt (X.aes_decrypt_block (create_key password)) input.length iv input

end aes

/-! ## Records to and from trees (`walley.cpp`) -/

/-- A run of assignments `field = tree.get< std::string >(key);` in sequence: the record
as it is when the run ends, and the exception that ended it early, if any. -/
def assign_fields {ρ : Type} (tree : ptree) :
    List (String × (ρ → String → ρ)) → ρ → ρ × Except ptree_error Unit
  | [], self => (self, .ok ())
  | (key, set) :: rest, self =>
    match tree.get_string key with
    | .ok v => assign_fields tree rest (set self v)
    | .error e => (self, .error e)

/-- Member `login_type::load`. -/
def login_type.load (X : Extern) (self : login_type) (tree : ptree) :
    login_type × Except ptree_error Unit :=
  match assign_fields tree
      [("uid", fun r v => { r with uid := v }),
       ("title", fun r v => { r with title := v }),
       ("category", fun r v => { r with category := v }),
       ("username", fun r v => { r with username := v }),
       ("password", fun r v => { r with password := v }),
       ("url", fun r v => { r with url := v })] self with
  | (r, .error e) => (r, .error e)
  | (r, .ok _) =>
    match tree.get_ptime X "last_change" with
    | .ok t => ({ r with last_change := t }, .ok ())
    | .error e => (r, .error e)

/-- Member `login_type::save`. -/
def login_type.save (X : Extern) (self : login_type) : ptree :=
  ((((((ptree.init.put "uid" self.uid).put "title" self.title).put "category"
    self.category).put "username" self.username).put "password" self.password).put "url"
    self.url).put "last_change" (X.ptime_to_string self.last_change)

/-- Member `note_type::load`. -/
def note_type.load (self : note_type) (tree : ptree) : note_type × Except ptree_error Unit :=
  assign_fields tree
    [("uid", fun r v => { r with uid := v }),
     ("title", fun r v => { r with title := v }),
     ("category", fun r v => { r with category := v }),
     ("content", fun r v => { r with content := v })] self

/-- Member `note_type::save`. -/
def note_type.save (self : note_type) : ptree :=
  (((ptree.init.put "uid" self.uid).put "title" self.title).put "category"
    self.category).put "content" self.content

/-- Member `file_type::load`. -/
def file_type.load (self : file_type) (tree : ptree) : file_type × Except ptree_error Unit :=
  assign_fields tree
    [("uid", fun r v => { r with uid := v }),
     ("title", fun r v => { r with title := v }),
     ("category", fun r v => { r with category := v }),
     ("content", fun r v => { r with content := v })] self

/-- Member `file_type::save`. -/
def file_type.save (self : file_type) : ptree :=
  (((ptree.init.put "uid" self.uid).put "title" self.title).put "category"
    self.category).put "content" self.content

/-- Member `contact_type::load`. -/
def contact_type.load (self : contact_type) (tree : ptree) :
    contact_type × Except ptree_error Unit :=
  assign_fields tree
    [("uid", fun r v => { r with uid := v }),
     ("category", fun r v => { r with category := v }),
     ("first_name", fun r v => { r with first_name := v }),
     ("last_name", fun r v => { r with last_name := v }),
     ("email", fun r v => { r with email := v }),
     ("phone", fun r v => { r with phone := v }),
     ("street", fun r v => { r with street := v }),
     ("zip", fun r v => { r with zip := v }),
     ("city", fun r v => { r with city := v }),
     ("country", fun r v => { r with country := v }),
     ("comment", fun r v => { r with comment := v })] self

/-- Member `contact_type::save`. -/
def contact_type.save (self : contact_type) : ptree :=
  ((((((((((ptree.init.put "uid" self.uid).put "category" self.category).put "first_name"
    self.first_name).put "last_name" self.last_name).put "email" self.email).put "phone"
    self.phone).put "street" self.street).put "zip" self.zip).put "city" self.city).put
    "country" self.country).put "comment" self.comment

/-! ## Loading and saving the store (`walley.cpp`) -/

/-- One loop of `container::load`,
`BOOST_FOREACH (value, children) { v.push_back(T()); v.back().load(value.second); }`:
the vector as it is when the loop ends, and the exception that ended it early, if any. -/
def load_each {ρ : Type} (init : ρ) (ld : ρ → ptree → ρ × Except ptree_error Unit) :
    List (String × ptree) → List ρ → List ρ × Except ptree_error Unit
  | [], items => (items, .ok ())
  | value :: rest, items =>
    match ld init value.2 with
    | (r, .ok _) => load_each init ld rest (items ++ [r])
    | (r, .error e) => (items ++ [r], .error e)

/-- One statement `BOOST_FOREACH (value, tree.get_child(name)) { ... }` of
`container::load`: `get_child` throws `ptree_bad_path` when the child is missing,
otherwise the loop runs over the children of that child. -/
def load_array {ρ : Type} (tree : ptree) (name : String) (init : ρ)
    (ld : ρ → ptree → ρ × Except ptree_error Unit) (items : List ρ) :
    List ρ × Except ptree_error Unit :=
  match tree.get_child name with
  | .error e => (items, .error e)
  | .ok sub => load_each init ld sub.children items

/-- The statements of the `try` block of `container::load` that follow `read_json`: the
four loops in sequence, the first exception ending the run. -/
def container.load_tree (X : Extern) (self : container) (tree : ptree) :
    container × Except ptree_error Unit :=
  let r1 := load_array tree "logins" login_type.init (login_type.load X) self.logins
  let c1 := { self with logins := r1.1 }
  match r1.2 with
  | .error e => (c1, .error e)
  | .ok _ =>
    let r2 := load_array tree "notes" note_type.init note_type.load c1.notes
    let c2 := { c1 with notes := r2.1 }
    match r2.2 with
    | .error e => (c2, .error e)
    | .ok _ =>
      let r3 := load_array tree "files" file_type.init file_type.load c2.files
      let c3 := { c2 with files := r3.1 }
      match r3.2 with
      | .error e => (c3, .error e)
      | .ok _ =>
        let r4 := load_array tree "contacts" contact_type.init contact_type.load c3.contacts
        ({ c3 with contacts := r4.1 }, r4.2)

/-- Member `container::load`: `clear()`, the decryption, and the `try` block whose handler
turns every `std::exception` into `corrupted_input_error`. -/
def container.load (X : Extern) (self : container) (password input : Bytes) :
    container × Except error Unit :=
  let c := self.clear
  let indata := aes.decrypt X password input
  match X.read_json indata with
  | none => (c, .error .corrupted_input_error)
  | some tree =>
    match c.load_tree X tree with
    | (c', .ok _) => (c', .ok ())
    | (c', .error _) => (c', .error .corrupted_input_error)

/-- The tree `container::save` builds before it writes it out. -/
def container.save_tree (X : Extern) (self : container) : ptree :=
  let logins_child :=
    self.logins.foldl (fun t value => t.push_back "" (value.save X)) ptree.init
  let tree := ptree.init.add_child "logins" logins_child
  let notes_child := self.notes.foldl (fun t value => t.push_back "" value.save) ptree.init
  let tree := tree.add_child "notes" notes_child
  let files_child := self.files.foldl (fun t value => t.push_back "" value.save) ptree.init
  let tree := tree.add_child "files" files_child
  let contacts_child :=
    self.contacts.foldl (fun t value => t.push_back "" value.save) ptree.init
  tree.add_child "contacts" contacts_child

/-- Member `container::save`. -/
def container.save (X : Extern) (self : container) (password : Bytes) : Except error Bytes :=
  aes.encrypt X password (X.write_json (self.save_tree X))

/-! ## Vocabulary of the statements about `load` -/

/-- The tree has a child under the key. -/
def ptree.has_child (self : ptree) (key : String) : Prop :=
  ∃ kv ∈ self.children, kv.1 = key

/-- The keys `login_type::load` reads. -/
def login_fields : List String :=
  ["uid", "title", "category", "username", "password", "url", "last_change"]

/-- The keys `note_type::load` reads. -/
def note_fields : List String := ["uid", "title", "category", "content"]

/-- The keys `file_type::load` reads. -/
def file_fields : List String := ["uid", "title", "category", "content"]

/-- The keys `contact_type::load` reads. -/
def contact_fields : List String :=
  ["uid", "category", "first_name", "last_name", "email", "phone", "street", "zip", "city",
    "country", "comment"]

/-- The four children `container::load` reads, each with the keys read from its
elements. -/
def document_schema : List (String × List String) :=
  [("logins", login_fields), ("notes", note_fields), ("files", file_fields),
    ("contacts", contact_fields)]

/-- The tree is not a document of the expected shape: one of the four children is
missing, or an element of one of them lacks a key of its kind. -/
def ptree.misshapen (tree : ptree) : Prop :=
  ∃ entry ∈ document_schema,
    ¬ tree.has_child entry.1 ∨
    ∃ sub, tree.get_child entry.1 = .ok sub ∧
      ∃ el ∈ sub.children, ∃ key ∈ entry.2, ¬ el.2.has_child key

/-- The records one loop of `container::load` produces when it runs to its end over the
child `name` of the tree (none when the child is missing): for each element the record
`T()` after `load(element)`, be it complete or not. -/
def attempted {ρ : Type} (tree : ptree) (name : String) (init : ρ)
    (ld : ρ → ptree → ρ × Except ptree_error Unit) : List ρ :=
  match tree.get_child name with
  | .error _ => []
  | .ok sub => sub.children.map (fun value => (ld init value.2).1)

/-- The states of a store that starts empty and goes through any sequence of calls of
`load`, `clear` and the setters, with any arguments and any identifiers drawn; the state
after a call that threw is a state too. -/
inductive reachable (X : Extern) : container → Prop
  | init : reachable X container.init
  | clear (c : container) : reachable X c → reachable X c.clear
  | load (c : container) (password input : Bytes) :
      reachable X c → reachable X (c.load X password input).1
  | upsert (c : container) (e : element) (u : uuid) :
      reachable X c → reachable X (c.upsert e u).1

/-- The uids the records of each of the four children of a document get from `load` are
pairwise distinct within the child. -/
def ptree.uids_distinct (X : Extern) (tree : ptree) : Prop :=
  ((attempted tree "logins" login_type.init (login_type.load X)).map login_type.uid).Nodup ∧
  ((attempted tree "notes" note_type.init note_type.load).map note_type.uid).Nodup ∧
  ((attempted tree "files" file_type.init file_type.load).map file_type.uid).Nodup ∧
  ((attempted tree "contacts" contact_type.init contact_type.load).map
    contact_type.uid).Nodup

/-- The states of a store that starts empty and goes through calls of `clear`, of `load` on
documents whose uids are pairwise distinct within each child, and of the setters where
every identifier drawn differs from the uids in use in the vector it is drawn for. -/
inductive reachable_fresh (X : Extern) : container → Prop
  | init : reachable_fresh X container.init
  | clear (c : container) : reachable_fresh X c → reachable_fresh X c.clear
  | load (c : container) (password input : Bytes) :
      reachable_fresh X c →
      (∀ tree, X.read_json (aes.decrypt X password input) = some tree →
        tree.uids_distinct X) →
      reachable_fresh X (c.load X password input).1
  | upsert (c : container) (e : element) (u : uuid) :
      reachable_fresh X c →
      (e.uid = "" → ∀ x ∈ c.elements e.kind, x.uid ≠ uuid_to_string u) →
      reachable_fresh X (c.upsert e u).1

/-- A stand-in for the library with an identity block cipher, a writer that writes `text`
for every tree, a reader that reads `doc` from `text` and rejects every other input, and a
textual form for two values of `ptime`. -/
def test_double (text : Bytes) (doc : Option ptree) : Extern where
  read_json := fun input => if input = text then doc else none
  write_json := fun _ => text
  ptime_to_string := fun t => if t = ⟨0⟩ then "1970-Jan-01 00:00:00" else "not-a-date-time"
  ptime_of_string := fun s =>
    if s = "1970-Jan-01 00:00:00" then some ⟨0⟩
    else if s = "not-a-date-time" then some not_a_date_time
    else none
  aes_encrypt_block := fun _ block => block
  aes_decrypt_block := fun _ block => block

/-- A version 4 uuid as the random generator returns them; its textual form is
"12345678-9abc-4def-8123-456789abcdef". -/
def sample_uuid : uuid :=
  [18, 52, 86, 120, 154, 188, 77, 239, 129, 35, 69, 103, 137, 171, 205, 239]

/-- Another version 4 uuid; its textual form is "22345678-9abc-4def-8123-456789abcdef". -/
def other_uuid : uuid :=
  [34, 52, 86, 120, 154, 188, 77, 239, 129, 35, 69, 103, 137, 171, 205, 239]

/-- A document of the expected shape whose two notes have the same uid. -/
def duplicate_uid_tree : ptree :=
  .mk "" [("logins", .mk "" []),
    ("notes", .mk "" [
      ("", .mk "" [("uid", .mk "n" []), ("title", .mk "a" []), ("category", .mk "" []),
        ("content", .mk "x" [])]),
      ("", .mk "" [("uid", .mk "n" []), ("title", .mk "b" []), ("category", .mk "" []),
        ("content", .mk "y" [])])]),
    ("files", .mk "" []), ("contacts", .mk "" [])]

/-- A store with one record of each kind; its file is mapped. -/
def sample_store : container :=
  { logins := [⟨"l1", "mail", "", "jane", "secret", "", ⟨0⟩⟩],
    notes := [⟨"n1", "pin", "bank", "1234"⟩],
    files := [⟨"f1", "scan", "", "aGk=", "/tmp/3f9a-0c1e"⟩],
    contacts := [⟨"c1", "", "Jane", "Doe", "", "", "", "", "", "", ""⟩] }

/-- The tree `save` builds for `sample_store`. -/
def sample_tree : ptree :=
  .mk "" [
    ("logins", .mk "" [("", .mk "" [("uid", .mk "l1" []), ("title", .mk "mail" []),
      ("category", .mk "" []), ("username", .mk "jane" []), ("password", .mk "secret" []),
      ("url", .mk "" []), ("last_change", .mk "1970-Jan-01 00:00:00" [])])]),
    ("notes", .mk "" [("", .mk "" [("uid", .mk "n1" []), ("title", .mk "pin" []),
      ("category", .mk "bank" []), ("content", .mk "1234" [])])]),
    ("files", .mk "" [("", .mk "" [("uid", .mk "f1" []), ("title", .mk "scan" []),
      ("category", .mk "" []), ("content", .mk "aGk=" [])])]),
    ("contacts", .mk "" [("", .mk "" [("uid", .mk "c1" []), ("category", .mk "" []),
      ("first_name", .mk "Jane" []), ("last_name", .mk "Doe" []), ("email", .mk "" []),
      ("phone", .mk "" []), ("street", .mk "" []), ("zip", .mk "" []), ("city", .mk "" []),
      ("country", .mk "" []), ("comment", .mk "" [])])])]

/-- The bytes the stand-in writer writes for `sample_tree`: twenty bytes, one block and a
part of one. -/
def sample_text : Bytes :=
  [123, 34, 108, 111, 103, 105, 110, 115, 34, 58, 91, 123, 34, 117, 105, 100, 34, 58, 34, 108]

/-- The title under which `elements_by_category` lists a record: the member `title`, and
`title()` for a contact. -/
def element.title : element → String
  | .login v => v.title
  | .note v => v.title
  | .file v => v.title
  | .contact v => v.title

/-- The element `v` is the first element of `l` that satisfies `p`. -/
def first_such {α : Type} (p : α → Prop) (l : List α) (v : α) : Prop :=
  ∃ l1 l2, l = l1 ++ v :: l2 ∧ p v ∧ ∀ x ∈ l1, ¬ p x

/-! ## Base64 (`base64.cpp`) -/

namespace base64

/-- The table of `base64_from_binary`: the character of each six bit value. -/
def alphabet : List Char :=
  "ABCDEFGHIJKLMNOPQRSTUVWXYZabcdefghijklmnopqrstuvwxyz0123456789+/".data

/-- The character `base64_from_binary` gives for a six bit value. -/
def to_char (v : Nat) : Char := alphabet.getD v 'A'

/-- The six bit value `binary_from_base64` gives for a character, `none` for a character
outside the table, for which it throws `dataflow_exception`. -/
def value (c : Char) : Option Nat :=
  if alphabet.indexOf c < 64 then some (alphabet.indexOf c) else none

/-- The predicate of `remove_whitespace`: `std::isspace` in the "C" locale. -/
def is_space (c : Char) : Bool :=
  c = ' ' || c = '\t' || c = '\n' || c = '\x0b' || c = '\x0c' || c = '\r'

/-- The characters of the range
`base64_from_binary< transform_width< const_iterator, 6, 8 > >` over the input: the
bits of the bytes, six at a time, the last group filled up with zero bits. -/
def encode_range : Bytes → List Char
  | a :: b :: c :: rest =>
    to_char (a / 4 % 64) :: to_char (a % 4 * 16 + b / 16 % 16) ::
      to_char (b % 16 * 4 + c / 64 % 4) :: to_char (c % 64) :: encode_range rest
  | [a, b] => [to_char (a / 4 % 64), to_char (a % 4 * 16 + b / 16 % 16), to_char (b % 16 * 4)]
  | [a] => [to_char (a / 4 % 64), to_char (a % 4 * 16)]
  | [] => []

/-- Function `base64::encode`. -/
def encode (input : Bytes) : String :=
  String.mk (encode_range input ++ List.replicate ((3 - input.length % 3) % 3) '=')

/-- One character read through `binary_from_base64< remove_whitespace< ... > >`: white
space is skipped and the next character translated; the character read at the end of the
string is its terminating zero, which is not in the table. The result is the value and
the characters left. -/
def read_sextet : List Char → Except error (Nat × List Char)
  | [] => .error .dataflow_exception
  | c :: rest =>
    if is_space c then read_sextet rest
    else
      match value c with
      | some v => .ok (v, rest)
      | none => .error .dataflow_exception

/-- The bytes of the range `transform_width< binary_from_base64< ... >, 8, 6 >` over the
characters: a byte is made of the `rem` low bits left of the value read last, `buf`, and
of the leading bits of as many further values as it takes, until no character is left;
bits left over at the end are dropped. The first argument bounds the number of bytes and
is the number of characters. -/
def decode_range : Nat → Nat → Nat → List Char → Except error Bytes
  | 0, _, _, _ => .ok []
  | fuel + 1, buf, rem, input =>
    if input = [] then .ok []
    else if rem = 0 then
      match read_sextet input with
      | .error e => .error e
      | .ok (v1, rest1) =>
        match read_sextet rest1 with
        | .error e => .error e
        | .ok (v2, rest2) =>
          match decode_range fuel v2 4 rest2 with
          | .error e => .error e
          | .ok out => .ok ((v1 % 64 * 4 + v2 / 16 % 4) :: out)
    else
      match read_sextet input with
      | .error e => .error e
      | .ok (v, rest) =>
        match decode_range fuel v (rem - 2) rest with
        | .error e => .error e
        | .ok out =>
          .ok ((buf % 2 ^ rem * 2 ^ (8 - rem) + v / 2 ^ (rem - 2) % 2 ^ (8 - rem)) :: out)

/-- The number of `=` characters `base64::decode` counts as padding. -/
def padding (input : String) : Nat := input.data.count '='

/-- The bytes `base64::decode` holds before it erases the padding: those of the input
with every `=` replaced by `A`. -/
def decoded (input : String) : Except error Bytes :=
  decode_range input.data.length 0 0 (input.data.map (fun c => if c = '=' then 'A' else c))

/-- Function `base64::decode`: as many bytes as there were `=` characters are erased from
the end of the decoded bytes; erasing more bytes than there are is undefined. -/
def decode (input : String) : Except error Bytes :=
  match decoded input with
  | .error e => .error e
  | .ok output =>
    if padding input ≤ output.length then .ok (output.take (output.length - padding input))
    else .error .undefined_behaviour

end base64

/-! ## Files on disk (`auxiliary.cpp`) -/

/-- The file system as the functions of the repository see it: the files that exist and
can be opened, each with its bytes; the paths at which no file can be created; the paths
at which a write through an open stream fails; the paths at which
`boost::filesystem::remove` throws. -/
structure disk where
  files : List (String × Bytes)
  no_create : List String
  no_write : List String
  no_remove : List String
deriving DecidableEq, Repr

/-- The bytes of the file at a path, `none` when no file can be opened there. -/
def disk.read (d : disk) (path : String) : Option Bytes :=
  match d.files.find? (fun entry => entry.1 = path) with
  | some entry => some entry.2
  | none => none

/-- The file system without the file at a path. -/
def disk.remove (d : disk) (path : String) : disk :=
  { d with files := d.files.filter (fun entry => entry.1 ≠ path) }

/-- The file system with the given bytes as the content of the file at a path. -/
def disk.put (d : disk) (path : String) (content : Bytes) : disk :=
  { d with files := (path, content) :: d.files.filter (fun entry => entry.1 ≠ path) }

namespace auxiliary

/-- The characters of hexadecimal digits `i, i+1, ...` (`n` of them) of a drawn path, with
the dash that follows digits 3, 7 and 11. -/
def path_chars : Nat → Nat → List Nat → List Char
  | 0, _, _ => []
  | n + 1, i, draw =>
    hex_digits.getD (draw.getD i 0 % 16) '0' ::
      ((if i = 3 ∨ i = 7 ∨ i = 11 then ['-'] else []) ++ path_chars n (i + 1) draw)

/-- The path `boost::filesystem::unique_path()` returns, the model
"%%%%-%%%%-%%%%-%%%%" with a hexadecimal digit drawn at random for every `%`; `draw` are
the digits drawn. -/
def unique_path (draw : List Nat) : String := String.mk (path_chars 16 0 draw)

/-- The buffer `random_data` of one round of `secure_erase`: as many characters as the
file has, drawn from the generator; `noise` is what is drawn for a position. -/
def random_data (file_length : Nat) (noise : Nat → Nat) : Bytes :=
  (List.range file_length).map noise

/-- The loop `while (iterations--)` of `secure_erase`, from round `round` on: the buffer
is filled and written over the file from its first byte, and the position is set back to
the start. A write that fails leaves the file as it is and is not noticed. -/
def overwrite (filename : String) (file_length : Nat) (noise : Nat → Nat → Nat) :
    Nat → Nat → disk → disk
  | 0, _, d => d
  | iterations + 1, round, d =>
    let d1 :=
      if filename ∈ d.no_write then d
      else d.put filename (random_data file_length (noise round))
    overwrite filename file_length noise iterations (round + 1) d1

/-- Function `auxiliary::secure_erase`; `noise round position` is the character the
generator draws in a round for a position. -/
def secure_erase (d : disk) (filename : String) (iterations : Nat)
    (noise : Nat → Nat → Nat) : disk × Except error Unit :=
  match d.read filename with
  | none => (d, .error .file_access_error)
  | some content =>
    let d1 := overwrite filename content.length noise iterations 0 d
    if filename ∈ d1.no_remove then (d1, .error .file_access_error)
    else (d1.remove filename, .ok ())

/-- Function `auxiliary::map_file`; `draw` are the digits drawn for the path. Opening the
stream creates the file, or empties the one that is there. -/
def map_file (d : disk) (content : Bytes) (draw : List Nat) : disk × Except error String :=
  let temp := unique_path draw
  if temp ∈ d.no_create then (d, .error .file_access_error)
  else
    let d1 := d.put temp []
    let d2 := if temp ∈ d1.no_write then d1 else d1.put temp content
    (d2, .ok temp)

end auxiliary

/-! ## Files of the store on disk (`walley.cpp`) -/

/-- Member `file_type::upload`: the record and the file system after the call, and its
outcome. -/
def file_type.upload (self : file_type) (d : disk) (filename : String) (secure_erase : Bool)
    (iterations : Nat) (noise : Nat → Nat → Nat) : file_type × disk × Except error Unit :=
  match d.read filename with
  | none => (self, d, .error .file_access_error)
  | some file_content =>
    let self1 := { self with content := base64.encode file_content }
    if secure_erase then
      let r := auxiliary.secure_erase d filename iterations noise
      (self1, r.1, r.2)
    else (self1, d, .ok ())

/-- Member `file_type::map`: the record and the file system after the call, and the path
returned. -/
def file_type.map (self : file_type) (d : disk) (draw : List Nat) :
    file_type × disk × Except error String :=
  if self.mapped_file = "" then
    match base64.decode self.content with
    | .error e => (self, d, .error e)
    | .ok file_content =>
      match auxiliary.map_file d file_content draw with
      | (d1, .ok path) => ({ self with mapped_file := path }, d1, .ok path)
      | (d1, .error e) => (self, d1, .error e)
  else (self, d, .ok self.mapped_file)

/-- Member `file_type::unmap`: the record and the file system after the call, and its
outcome. -/
def file_type.unmap (self : file_type) (d : disk) (iterations : Nat)
    (noise : Nat → Nat → Nat) : file_type × disk × Except error Unit :=
  if self.mapped_file ≠ "" then
    match auxiliary.secure_erase d self.mapped_file iterations noise with
    | (d1, .ok _) => ({ self with mapped_file := "" }, d1, .ok ())
    | (d1, .error e) => (self, d1, .error e)
  else (self, d, .ok ())

/-- A file system with a source file "in.bin" holding the two bytes "hi" and a file
"3f9a-0c1e-77b2-5d40" of three other bytes. -/
def sample_disk : disk :=
  { files := [("in.bin", [104, 105]), ("3f9a-0c1e-77b2-5d40", [1, 2, 3])],
    no_create := [], no_write := [], no_remove := [] }

/-- The digits drawn for a path; the path is "a1b2-c3d4-e5f6-0789". -/
def sample_draw : List Nat := [10, 1, 11, 2, 12, 3, 13, 4, 14, 5, 15, 6, 0, 7, 8, 9]

/-! ## Generated passwords (`auxiliary.cpp`) -/

/-- Function `auxiliary::generate_password`; a character of the strings stands for a
`char` of the source, and `rng k` is what the generator gives for position `k`, which the
distribution `index_dist` brings into the range of the indices of the alphabet. -/
def auxiliary.generate_password (length : Nat) (special_characters : String)
    (rng : Nat → Nat) : String :=
  let alphabet :=
    "abcdefghijklmnopqrstuvwxyzABCDEFGHIJKLMNOPQRSTUVWXYZ1234567890" ++ special_characters
  String.mk ((List.range length).map (fun k =>
    alphabet.data.getD (rng k % alphabet.length) (Char.ofNat 0)))

/-- A file system with one file "secret.txt" of three bytes, which can be opened and
removed, and to which every write through an open stream fails. -/
def locked_disk : disk :=
  { files := [("secret.txt", [115, 101, 99])],
    no_create := [], no_write := ["secret.txt"], no_remove := [] }

/-! # Theorems -/

/-! ## Lookup by uid -/

/-- The lookup loop either finds no element with the uid and fails, or returns the first
element with it. -/
theorem lookup_cases {ρ : Type} (uid_of : ρ → String) (l : List ρ) (uid : String) :
    ((∀ x ∈ l, uid_of x ≠ uid) ∧ lookup uid_of l uid = .error .invalid_lookup_error) ∨
    (∃ l1 x l2, l = l1 ++ x :: l2 ∧ (∀ y ∈ l1, uid_of y ≠ uid) ∧ uid_of x = uid ∧
      lookup uid_of l uid = .ok x) := by
  induction l with
  | nil => left; simp [lookup]
  | cons a l ih =>
    by_cases ha : uid_of a = uid
    · right
      exact ⟨[], a, l, rfl, by simp, ha, by simp [lookup, ha]⟩
    · rcases ih with ⟨hno, herr⟩ | ⟨l1, x, l2, hl, hno, hx, hok⟩
      · left
        refine ⟨?_, by simp [lookup, ha, herr]⟩
        intro y hy
        rcases List.mem_cons.mp hy with rfl | hy
        · exact ha
        · exact hno y hy
      · right
        refine ⟨a :: l1, x, l2, by simp [hl], ?_, hx, by simp [lookup, ha, hok]⟩
        intro y hy
        rcases List.mem_cons.mp hy with rfl | hy
        · exact ha
        · exact hno y hy

/-- The same, seen through the tag of a kind. -/
theorem lookup_tagged {ρ : Type} (uid_of : ρ → String) (tag : ρ → element)
    (htag : ∀ x, (tag x).uid = uid_of x) (l : List ρ) (uid : String) :
    ((lookup uid_of l uid).map tag = .error .invalid_lookup_error ↔
      ∀ e ∈ l.map tag, e.uid ≠ uid) ∧
    ((∃ e ∈ l.map tag, e.uid = uid) →
      ∃ l1 e l2, l.map tag = l1 ++ e :: l2 ∧ (∀ x ∈ l1, x.uid ≠ uid) ∧ e.uid = uid ∧
        (lookup uid_of l uid).map tag = .ok e) := by
  rcases lookup_cases uid_of l uid with ⟨hno, herr⟩ | ⟨l1, x, l2, hl, hno, hx, hok⟩
  · have hno' : ∀ e ∈ l.map tag, e.uid ≠ uid := by
      intro e he
      obtain ⟨y, hy, rfl⟩ := List.mem_map.mp he
      rw [htag]
      exact hno y hy
    refine ⟨⟨fun _ => hno', fun _ => by rw [herr]; rfl⟩, ?_⟩
    rintro ⟨e, he, heq⟩
    exact absurd heq (hno' e he)
  · have hfound : ∃ l1 e l2, l.map tag = l1 ++ e :: l2 ∧ (∀ x ∈ l1, x.uid ≠ uid) ∧
        e.uid = uid ∧ (lookup uid_of l uid).map tag = .ok e := by
      refine ⟨l1.map tag, tag x, l2.map tag, by simp [hl], ?_, by rw [htag]; exact hx,
        by rw [hok]; rfl⟩
      intro e he
      obtain ⟨y, hy, rfl⟩ := List.mem_map.mp he
      rw [htag]
      exact hno y hy
    refine ⟨⟨?_, ?_⟩, fun _ => hfound⟩
    · intro h
      rw [hok] at h
      cases h
    · intro h
      exact absurd (by rw [htag]; exact hx) (h (tag x) (by simp [hl]))

/-- C9. For every store, kind and uid, the lookup of that kind fails with
`invalid_lookup_error` exactly when no record of the kind has the uid; when some record
has it, the lookup returns the first record of the vector that has it. -/
theorem get_by_uid (c : container) (k : kind) (uid : String) :
    (c.get k uid = .error .invalid_lookup_error ↔ ∀ e ∈ c.elements k, e.uid ≠ uid) ∧
    ((∃ e ∈ c.elements k, e.uid = uid) →
      ∃ l1 e l2, c.elements k = l1 ++ e :: l2 ∧ (∀ x ∈ l1, x.uid ≠ uid) ∧ e.uid = uid ∧
        c.get k uid = .ok e) := by
  cases k
  · exact lookup_tagged login_type.uid element.login (fun _ => rfl) c.logins uid
  · exact lookup_tagged note_type.uid element.note (fun _ => rfl) c.notes uid
  · exact lookup_tagged file_type.uid element.file (fun _ => rfl) c.files uid
  · exact lookup_tagged contact_type.uid element.contact (fun _ => rfl) c.contacts uid

/-! ## Sets and maps -/

theorem mem_std_set_insert (x y : String) (l : List String) :
    y ∈ std_set_insert x l ↔ y = x ∨ y ∈ l := by
  induction l with
  | nil => simp [std_set_insert]
  | cons a l ih =>
    unfold std_set_insert
    by_cases h1 : x < a
    · simp [h1]
    · by_cases h2 : a < x
      · simp only [h1, h2, if_false, if_true, List.mem_cons, ih]
        tauto
      · have hxa : x = a := le_antisymm (not_lt.mp h2) (not_lt.mp h1)
        simp only [h1, h2, if_false, List.mem_cons]
        constructor
        · intro h; exact Or.inr h
        · rintro (h | h)
          · exact Or.inl (h.trans hxa)
          · exact h

theorem std_set_insert_sorted (x : String) (l : List String)
    (hl : l.Pairwise (· < ·)) : (std_set_insert x l).Pairwise (· < ·) := by
  induction l with
  | nil => simp [std_set_insert]
  | cons a l ih =>
    have ha := (List.pairwise_cons.mp hl).1
    have hl' := (List.pairwise_cons.mp hl).2
    unfold std_set_insert
    by_cases h1 : x < a
    · simp only [h1, if_true]
      refine List.pairwise_cons.mpr ⟨?_, hl⟩
      intro z hz
      rcases List.mem_cons.mp hz with rfl | hz
      · exact h1
      · exact lt_trans h1 (ha z hz)
    · by_cases h2 : a < x
      · simp only [h1, h2, if_false, if_true]
        refine List.pairwise_cons.mpr ⟨?_, ih hl'⟩
        intro z hz
        rcases (mem_std_set_insert x z l).mp hz with rfl | hz
        · exact h2
        · exact ha z hz
      · simp only [h1, h2, if_false]
        exact hl

/-- The set a loop of `output.insert(value.category)` builds. -/
theorem mem_foldl_set_insert {ρ : Type} (f : ρ → String) (l : List ρ) (init : List String)
    (x : String) :
    x ∈ l.foldl (fun output value => std_set_insert (f value) output) init ↔
      x ∈ init ∨ ∃ v ∈ l, f v = x := by
  induction l generalizing init with
  | nil => simp
  | cons a l ih =>
    simp only [List.foldl_cons, ih, mem_std_set_insert, List.mem_cons, exists_eq_or_imp]
    constructor
    · rintro ((h | h) | h)
      · exact Or.inr (Or.inl h.symm)
      · exact Or.inl h
      · exact Or.inr (Or.inr h)
    · rintro (h | h | h)
      · exact Or.inl (Or.inr h)
      · exact Or.inl (Or.inl h.symm)
      · exact Or.inr h

theorem foldl_set_insert_sorted {ρ : Type} (f : ρ → String) (l : List ρ)
    (init : List String) (hinit : init.Pairwise (· < ·)) :
    (l.foldl (fun output value => std_set_insert (f value) output) init).Pairwise
      (· < ·) := by
  induction l generalizing init with
  | nil => simpa using hinit
  | cons a l ih =>
    simp only [List.foldl_cons]
    exact ih _ (std_set_insert_sorted _ _ hinit)

theorem mem_keys_std_map_insert (k v k' : String) (m : List (String × String)) :
    k' ∈ (std_map_insert k v m).map Prod.fst ↔ k' = k ∨ k' ∈ m.map Prod.fst := by
  induction m with
  | nil => simp [std_map_insert]
  | cons a m ih =>
    unfold std_map_insert
    by_cases h1 : k < a.1
    · simp [h1]
    · by_cases h2 : a.1 < k
      · simp only [h1, h2, if_false, if_true, List.map_cons, List.mem_cons, ih]
        tauto
      · have hka : k = a.1 := le_antisymm (not_lt.mp h2) (not_lt.mp h1)
        simp only [h1, h2, if_false, List.map_cons, List.mem_cons]
        constructor
        · intro h; exact Or.inr h
        · rintro (h | h)
          · exact Or.inl (h.trans hka)
          · exact h

/-- The keys of the map a loop of `elements_by_category` builds. -/
theorem mem_keys_foldl_map_insert {ρ : Type} (cat_of uid_of title_of : ρ → String)
    (cat : String) (l : List ρ) (init : List (String × String)) (k : String) :
    k ∈ (l.foldl (fun output value =>
        if cat_of value = cat then std_map_insert (uid_of value) (title_of value) output
        else output) init).map Prod.fst ↔
      k ∈ init.map Prod.fst ∨ ∃ v ∈ l, cat_of v = cat ∧ uid_of v = k := by
  induction l generalizing init with
  | nil => simp
  | cons a l ih =>
    simp only [List.foldl_cons, ih, List.mem_cons, exists_eq_or_imp]
    by_cases hc : cat_of a = cat
    · simp only [hc, if_true, mem_keys_std_map_insert, true_and]
      constructor
      · rintro ((h | h) | h)
        · exact Or.inr (Or.inl h.symm)
        · exact Or.inl h
        · exact Or.inr (Or.inr h)
      · rintro (h | h | h)
        · exact Or.inl (Or.inr h)
        · exact Or.inl (Or.inl h.symm)
        · exact Or.inr h
    · simp [hc]

/-! ## Categories -/

/-- The categories of one vector, seen through the tag of a kind. -/
theorem categories_tagged {ρ : Type} (cat_of : ρ → String) (tag : ρ → element)
    (htag : ∀ x, (tag x).category = cat_of x) (l : List ρ) :
    (l.foldl (fun output value => std_set_insert (cat_of value) output) []).Pairwise
        (· < ·) ∧
    ∀ x, x ∈ l.foldl (fun output value => std_set_insert (cat_of value) output) [] ↔
      ∃ e ∈ l.map tag, e.category = x := by
  refine ⟨foldl_set_insert_sorted cat_of l [] List.Pairwise.nil, ?_⟩
  intro x
  rw [mem_foldl_set_insert]
  constructor
  · rintro (h | ⟨v, hv, hx⟩)
    · cases h
    · exact ⟨tag v, List.mem_map_of_mem tag hv, by rw [htag]; exact hx⟩
  · rintro ⟨e, he, hx⟩
    obtain ⟨v, hv, rfl⟩ := List.mem_map.mp he
    exact Or.inr ⟨v, hv, by rw [← htag]; exact hx⟩

/-- The categories of a kind: an ascending list without repetition of the categories
of the records of that kind. -/
theorem categories_ok (c : container) (k : kind) :
    ∃ s, c.categories k.content_type = .ok s ∧ s.Pairwise (· < ·) ∧
      ∀ x, x ∈ s ↔ ∃ e ∈ c.elements k, e.category = x := by
  cases k
  · exact ⟨_, rfl, categories_tagged login_type.category element.login (fun _ => rfl)
      c.logins⟩
  · exact ⟨_, rfl, categories_tagged note_type.category element.note (fun _ => rfl)
      c.notes⟩
  · exact ⟨_, rfl, categories_tagged file_type.category element.file (fun _ => rfl)
      c.files⟩
  · exact ⟨_, rfl, categories_tagged contact_type.category element.contact (fun _ => rfl)
      c.contacts⟩

/-- C10. For every store and each of the four kinds, `categories` returns a set (an
ascending list without repetition) in which a string occurs exactly when some record of
that kind has it as category; on the empty store the result is the empty set and no
exception is thrown. -/
theorem categories_exact (c : container) (k : kind) :
    (∃ s, c.categories k.content_type = .ok s ∧ s.Pairwise (· < ·) ∧
      ∀ x, x ∈ s ↔ ∃ e ∈ c.elements k, e.category = x) ∧
    container.init.categories k.content_type = .ok [] :=
  ⟨categories_ok c k, by cases k <;> rfl⟩

/-- The keys of the map of one vector, seen through the tag of a kind. -/
theorem keys_tagged {ρ : Type} (cat_of uid_of title_of : ρ → String) (tag : ρ → element)
    (hcat : ∀ x, (tag x).category = cat_of x) (huid : ∀ x, (tag x).uid = uid_of x)
    (cat : String) (l : List ρ) (key : String) :
    key ∈ (l.foldl (fun output value =>
        if cat_of value = cat then std_map_insert (uid_of value) (title_of value) output
        else output) []).map Prod.fst ↔
      ∃ e ∈ l.map tag, e.category = cat ∧ e.uid = key := by
  rw [mem_keys_foldl_map_insert]
  constructor
  · rintro (h | ⟨v, hv, hc, hu⟩)
    · cases h
    · exact ⟨tag v, List.mem_map_of_mem tag hv, by rw [hcat]; exact hc,
        by rw [huid]; exact hu⟩
  · rintro ⟨e, he, hc, hu⟩
    obtain ⟨v, hv, rfl⟩ := List.mem_map.mp he
    exact Or.inr ⟨v, hv, by rw [← hcat]; exact hc, by rw [← huid]; exact hu⟩

/-- The keys of `elements_by_category` for a kind: the uids of the records of that kind
whose category is the requested one. -/
theorem elements_by_category_keys (c : container) (k : kind) (cat : String) :
    ∃ m, c.elements_by_category k.content_type cat = .ok m ∧
      ∀ key, key ∈ m.map Prod.fst ↔ ∃ e ∈ c.elements k, e.category = cat ∧ e.uid = key := by
  cases k
  · exact ⟨_, rfl, keys_tagged login_type.category login_type.uid login_type.title
      element.login (fun _ => rfl) (fun _ => rfl) cat c.logins⟩
  · exact ⟨_, rfl, keys_tagged note_type.category note_type.uid note_type.title
      element.note (fun _ => rfl) (fun _ => rfl) cat c.notes⟩
  · exact ⟨_, rfl, keys_tagged file_type.category file_type.uid file_type.title
      element.file (fun _ => rfl) (fun _ => rfl) cat c.files⟩
  · exact ⟨_, rfl, keys_tagged contact_type.category contact_type.uid contact_type.title
      element.contact (fun _ => rfl) (fun _ => rfl) cat c.contacts⟩

/-! ## Setting a record -/

/-- The update loop either finds no element with the uid of `value`, or overwrites the
first element that has it. -/
theorem assign_first_cases {ρ : Type} (uid_of : ρ → String) (value : ρ) (l : List ρ) :
    ((∀ x ∈ l, uid_of x ≠ uid_of value) ∧ assign_first uid_of value l = none) ∨
    (∃ l1 x l2, l = l1 ++ x :: l2 ∧ (∀ y ∈ l1, uid_of y ≠ uid_of value) ∧
      uid_of x = uid_of value ∧ assign_first uid_of value l = some (l1 ++ value :: l2)) := by
  induction l with
  | nil => left; simp [assign_first]
  | cons a l ih =>
    by_cases ha : uid_of value = uid_of a
    · right
      exact ⟨[], a, l, rfl, by simp, ha.symm, by simp [assign_first, ha]⟩
    · have ha' : uid_of a ≠ uid_of value := fun h => ha h.symm
      rcases ih with ⟨hno, herr⟩ | ⟨l1, x, l2, hl, hno, hx, hok⟩
      · left
        refine ⟨?_, by simp [assign_first, ha, herr]⟩
        intro y hy
        rcases List.mem_cons.mp hy with rfl | hy
        · exact ha'
        · exact hno y hy
      · right
        refine ⟨a :: l1, x, l2, by simp [hl], ?_, hx, by simp [assign_first, ha, hok]⟩
        intro y hy
        rcases List.mem_cons.mp hy with rfl | hy
        · exact ha'
        · exact hno y hy

/-- A non-empty uid that no element has: the setter throws and the vector is as it
was. -/
theorem store_unknown {ρ : Type} (uid_of : ρ → String) (set_uid : ρ → String → ρ)
    (items : List ρ) (value : ρ) (u : uuid) (hne : uid_of value ≠ "")
    (hno : ∀ x ∈ items, uid_of x ≠ uid_of value) :
    store uid_of set_uid items value u = (items, .error .invalid_lookup_error) := by
  rcases assign_first_cases uid_of value items with ⟨_, h⟩ | ⟨l1, x, l2, hl, _, hx, _⟩
  · simp [store, hne, h]
  · exact absurd hx (hno x (by simp [hl]))

/-- A non-empty uid that some element has: the first such element is overwritten. -/
theorem store_known {ρ : Type} (uid_of : ρ → String) (set_uid : ρ → String → ρ)
    (items : List ρ) (value : ρ) (u : uuid) (hne : uid_of value ≠ "")
    (hsome : ∃ x ∈ items, uid_of x = uid_of value) :
    ∃ l1 x l2, items = l1 ++ x :: l2 ∧ (∀ y ∈ l1, uid_of y ≠ uid_of value) ∧
      uid_of x = uid_of value ∧
      store uid_of set_uid items value u = (l1 ++ value :: l2, .ok (uid_of value)) := by
  rcases assign_first_cases uid_of value items with ⟨hno, _⟩ | ⟨l1, x, l2, hl, hno, hx, h⟩
  · obtain ⟨x, hx, hxu⟩ := hsome
    exact absurd hxu (hno x hx)
  · exact ⟨l1, x, l2, hl, hno, hx, by simp [store, hne, h]⟩

/-- An empty uid: the record is appended under the identifier that was drawn. -/
theorem store_new {ρ : Type} (uid_of : ρ → String) (set_uid : ρ → String → ρ)
    (items : List ρ) (value : ρ) (u : uuid) (he : uid_of value = "") :
    store uid_of set_uid items value u =
      (items ++ [set_uid value (uuid_to_string u)], .ok (uuid_to_string u)) := by
  simp [store, he]

/-- The textual form of a uuid is never the empty string. -/
theorem uuid_to_string_ne_empty (u : uuid) : uuid_to_string u ≠ "" := by
  intro h
  have h2 := congrArg String.data h
  simp [uuid_to_string, uuid_chars, hex_byte] at h2

/-- The state after a setter that appends: the vector of the record's kind has the record
as new last element, under the identifier drawn; the other vectors are as they were. -/
theorem upsert_new_state (c : container) (e : element) (u : uuid) (he : e.uid = "") :
    (c.upsert e u).2 = .ok (uuid_to_string u) ∧
    (c.upsert e u).1.elements e.kind =
      c.elements e.kind ++ [e.with_uid (uuid_to_string u)] ∧
    ∀ k, k ≠ e.kind → (c.upsert e u).1.elements k = c.elements k := by
  cases e with
  | login v =>
    have h := store_new login_type.uid (fun v s => { v with uid := s }) c.logins v u he
    refine ⟨?_, ?_, ?_⟩
    · simp [container.upsert, container.set_login, h]
    · simp [container.upsert, container.set_login, h, container.elements, element.kind,
        element.with_uid]
    · intro k hk
      cases k <;> simp_all [container.upsert, container.set_login, container.elements,
        element.kind]
  | note v =>
    have h := store_new note_type.uid (fun v s => { v with uid := s }) c.notes v u he
    refine ⟨?_, ?_, ?_⟩
    · simp [container.upsert, container.set_note, h]
    · simp [container.upsert, container.set_note, h, container.elements, element.kind,
        element.with_uid]
    · intro k hk
      cases k <;> simp_all [container.upsert, container.set_note, container.elements,
        element.kind]
  | file v =>
    have h := store_new file_type.uid (fun v s => { v with uid := s }) c.files v u he
    refine ⟨?_, ?_, ?_⟩
    · simp [container.upsert, container.set_file, h]
    · simp [container.upsert, container.set_file, h, container.elements, element.kind,
        element.with_uid]
    · intro k hk
      cases k <;> simp_all [container.upsert, container.set_file, container.elements,
        element.kind]
  | contact v =>
    have h := store_new contact_type.uid (fun v s => { v with uid := s }) c.contacts v u he
    refine ⟨?_, ?_, ?_⟩
    · simp [container.upsert, container.set_contact, h]
    · simp [container.upsert, container.set_contact, h, container.elements, element.kind,
        element.with_uid]
    · intro k hk
      cases k <;> simp_all [container.upsert, container.set_contact, container.elements,
        element.kind]

/-- The state after a setter that finds no record with the given non-empty uid: the
exception, and the store as it was. -/
theorem upsert_unknown_state (c : container) (e : element) (u : uuid) (hne : e.uid ≠ "")
    (hno : ∀ x ∈ c.elements e.kind, x.uid ≠ e.uid) :
    c.upsert e u = (c, .error .invalid_lookup_error) := by
  cases e with
  | login v =>
    have h := store_unknown login_type.uid (fun v s => { v with uid := s }) c.logins v u hne
      (fun x hx => hno (.login x) (List.mem_map_of_mem _ hx))
    simp [container.upsert, container.set_login, h]
  | note v =>
    have h := store_unknown note_type.uid (fun v s => { v with uid := s }) c.notes v u hne
      (fun x hx => hno (.note x) (List.mem_map_of_mem _ hx))
    simp [container.upsert, container.set_note, h]
  | file v =>
    have h := store_unknown file_type.uid (fun v s => { v with uid := s }) c.files v u hne
      (fun x hx => hno (.file x) (List.mem_map_of_mem _ hx))
    simp [container.upsert, container.set_file, h]
  | contact v =>
    have h := store_unknown contact_type.uid (fun v s => { v with uid := s }) c.contacts v u
      hne (fun x hx => hno (.contact x) (List.mem_map_of_mem _ hx))
    simp [container.upsert, container.set_contact, h]

/-- The state after a setter that finds a record with the given non-empty uid: the first
such record is replaced by the given one, in place; the other vectors are as they
were. -/
theorem upsert_known_state (c : container) (e : element) (u : uuid) (hne : e.uid ≠ "")
    (hsome : ∃ x ∈ c.elements e.kind, x.uid = e.uid) :
    ∃ l1 x l2, c.elements e.kind = l1 ++ x :: l2 ∧ (∀ y ∈ l1, y.uid ≠ e.uid) ∧
      x.uid = e.uid ∧ (c.upsert e u).2 = .ok e.uid ∧
      (c.upsert e u).1.elements e.kind = l1 ++ e :: l2 ∧
      ∀ k, k ≠ e.kind → (c.upsert e u).1.elements k = c.elements k := by
  cases e with
  | login v =>
    have hsome' : ∃ x ∈ c.logins, login_type.uid x = login_type.uid v := by
      obtain ⟨x, hx, hxu⟩ := hsome
      obtain ⟨y, hy, rfl⟩ := List.mem_map.mp hx
      exact ⟨y, hy, hxu⟩
    obtain ⟨l1, x, l2, hl, hno, hx, h⟩ :=
      store_known login_type.uid (fun v s => { v with uid := s }) c.logins v u hne hsome'
    refine ⟨l1.map .login, .login x, l2.map .login, ?_, ?_, hx, ?_, ?_, ?_⟩
    · simp [container.elements, element.kind, hl]
    · intro y hy
      obtain ⟨z, hz, rfl⟩ := List.mem_map.mp hy
      exact hno z hz
    · simp [container.upsert, container.set_login, h, element.uid]
    · simp [container.upsert, container.set_login, h, container.elements, element.kind]
    · intro k hk
      cases k <;> simp_all [container.upsert, container.set_login, container.elements,
        element.kind]
  | note v =>
    have hsome' : ∃ x ∈ c.notes, note_type.uid x = note_type.uid v := by
      obtain ⟨x, hx, hxu⟩ := hsome
      obtain ⟨y, hy, rfl⟩ := List.mem_map.mp hx
      exact ⟨y, hy, hxu⟩
    obtain ⟨l1, x, l2, hl, hno, hx, h⟩ :=
      store_known note_type.uid (fun v s => { v with uid := s }) c.notes v u hne hsome'
    refine ⟨l1.map .note, .note x, l2.map .note, ?_, ?_, hx, ?_, ?_, ?_⟩
    · simp [container.elements, element.kind, hl]
    · intro y hy
      obtain ⟨z, hz, rfl⟩ := List.mem_map.mp hy
      exact hno z hz
    · simp [container.upsert, container.set_note, h, element.uid]
    · simp [container.upsert, container.set_note, h, container.elements, element.kind]
    · intro k hk
      cases k <;> simp_all [container.upsert, container.set_note, container.elements,
        element.kind]
  | file v =>
    have hsome' : ∃ x ∈ c.files, file_type.uid x = file_type.uid v := by
      obtain ⟨x, hx, hxu⟩ := hsome
      obtain ⟨y, hy, rfl⟩ := List.mem_map.mp hx
      exact ⟨y, hy, hxu⟩
    obtain ⟨l1, x, l2, hl, hno, hx, h⟩ :=
      store_known file_type.uid (fun v s => { v with uid := s }) c.files v u hne hsome'
    refine ⟨l1.map .file, .file x, l2.map .file, ?_, ?_, hx, ?_, ?_, ?_⟩
    · simp [container.elements, element.kind, hl]
    · intro y hy
      obtain ⟨z, hz, rfl⟩ := List.mem_map.mp hy
      exact hno z hz
    · simp [container.upsert, container.set_file, h, element.uid]
    · simp [container.upsert, container.set_file, h, container.elements, element.kind]
    · intro k hk
      cases k <;> simp_all [container.upsert, container.set_file, container.elements,
        element.kind]
  | contact v =>
    have hsome' : ∃ x ∈ c.contacts, contact_type.uid x = contact_type.uid v := by
      obtain ⟨x, hx, hxu⟩ := hsome
      obtain ⟨y, hy, rfl⟩ := List.mem_map.mp hx
      exact ⟨y, hy, hxu⟩
    obtain ⟨l1, x, l2, hl, hno, hx, h⟩ :=
      store_known contact_type.uid (fun v s => { v with uid := s }) c.contacts v u hne hsome'
    refine ⟨l1.map .contact, .contact x, l2.map .contact, ?_, ?_, hx, ?_, ?_, ?_⟩
    · simp [container.elements, element.kind, hl]
    · intro y hy
      obtain ⟨z, hz, rfl⟩ := List.mem_map.mp hy
      exact hno z hz
    · simp [container.upsert, container.set_contact, h, element.uid]
    · simp [container.upsert, container.set_contact, h, container.elements, element.kind]
    · intro k hk
      cases k <;> simp_all [container.upsert, container.set_contact, container.elements,
        element.kind]

/-- C5 (as amended). For every store, kind and record with an empty uid, the setter
succeeds and returns the identifier that was drawn, which is non-empty and is the uid of a
record of that kind after the call, of exactly one when no record of the kind had that
uid before; afterwards the record's category is in `categories` of the kind and the
returned uid is a key of `elements_by_category` of the kind and the record's category. -/
theorem upsert_empty_uid (c : container) (e : element) (u : uuid) (he : e.uid = "") :
    (c.upsert e u).2 = .ok (uuid_to_string u) ∧ uuid_to_string u ≠ "" ∧
    (∃ x ∈ (c.upsert e u).1.elements e.kind, x.uid = uuid_to_string u) ∧
    ((∀ x ∈ c.elements e.kind, x.uid ≠ uuid_to_string u) →
      ((c.upsert e u).1.elements e.kind).countP (fun x => x.uid = uuid_to_string u) = 1) ∧
    (∃ s, (c.upsert e u).1.categories e.kind.content_type = .ok s ∧ e.category ∈ s) ∧
    (∃ m, (c.upsert e u).1.elements_by_category e.kind.content_type e.category = .ok m ∧
      uuid_to_string u ∈ m.map Prod.fst) := by
  obtain ⟨hres, hel, _⟩ := upsert_new_state c e u he
  have huid : (e.with_uid (uuid_to_string u)).uid = uuid_to_string u := by cases e <;> rfl
  have hcat : (e.with_uid (uuid_to_string u)).category = e.category := by cases e <;> rfl
  have hmem : e.with_uid (uuid_to_string u) ∈ (c.upsert e u).1.elements e.kind := by
    rw [hel]; simp
  refine ⟨hres, uuid_to_string_ne_empty u, ⟨_, hmem, huid⟩, ?_, ?_, ?_⟩
  · intro hfresh
    rw [hel, List.countP_append]
    have h0 : (c.elements e.kind).countP (fun x => x.uid = uuid_to_string u) = 0 := by
      rw [List.countP_eq_zero]
      intro x hx
      simpa using hfresh x hx
    rw [h0]
    simp [huid]
  · obtain ⟨s, hs, _, hiff⟩ := categories_ok (c.upsert e u).1 e.kind
    exact ⟨s, hs, (hiff e.category).mpr ⟨_, hmem, hcat⟩⟩
  · obtain ⟨m, hm, hiff⟩ := elements_by_category_keys (c.upsert e u).1 e.kind e.category
    exact ⟨m, hm, (hiff _).mpr ⟨_, hmem, hcat, huid⟩⟩

/-- A store, a note without uid and a draw at which `upsert_empty_uid` applies. -/
theorem upsert_empty_uid_witness :
    (element.note ⟨"", "pin", "bank", "1234"⟩).uid = "" ∧
    ((container.mk [] [] [] []).upsert (.note ⟨"", "pin", "bank", "1234"⟩) sample_uuid).2 =
      .ok "12345678-9abc-4def-8123-456789abcdef" :=
  ⟨rfl,
    (upsert_empty_uid ⟨[], [], [], []⟩ (.note ⟨"", "pin", "bank", "1234"⟩) sample_uuid rfl).1⟩

/-- C5 (as stated) fails when the identifier drawn is already in use: the store holds a
login under the uid "12345678-9abc-4def-8123-456789abcdef", the generator draws that uuid
for a new login, and two records hold the returned uid after the call. -/
theorem upsert_empty_uid_collision :
    ((container.mk [⟨"12345678-9abc-4def-8123-456789abcdef", "old", "", "", "", "",
        not_a_date_time⟩] [] [] []).upsert (.login login_type.init) sample_uuid).2 =
      .ok "12345678-9abc-4def-8123-456789abcdef" ∧
    (((container.mk [⟨"12345678-9abc-4def-8123-456789abcdef", "old", "", "", "", "",
        not_a_date_time⟩] [] [] []).upsert (.login login_type.init) sample_uuid).1.elements
        .login).countP (fun x => x.uid = "12345678-9abc-4def-8123-456789abcdef") = 2 := by
  decide

/-- C6. For every store, kind and record whose uid is non-empty and is the uid of no
record of that kind, the setter fails with `invalid_lookup_error` and all four vectors
are as they were before the call. -/
theorem upsert_unknown_uid (c : container) (e : element) (u : uuid) (hne : e.uid ≠ "")
    (hno : ∀ x ∈ c.elements e.kind, x.uid ≠ e.uid) :
    c.upsert e u = (c, .error .invalid_lookup_error) :=
  upsert_unknown_state c e u hne hno

/-- A store with one contact and a contact under another uid, at which
`upsert_unknown_uid` applies. -/
theorem upsert_unknown_uid_witness :
    (container.mk [] [] [] [⟨"a1", "", "Jane", "Doe", "", "", "", "", "", "", ""⟩]).upsert
        (.contact ⟨"b2", "", "John", "Doe", "", "", "", "", "", "", ""⟩) sample_uuid =
      (container.mk [] [] [] [⟨"a1", "", "Jane", "Doe", "", "", "", "", "", "", ""⟩],
        .error .invalid_lookup_error) :=
  upsert_unknown_uid ⟨[], [], [], [⟨"a1", "", "Jane", "Doe", "", "", "", "", "", "", ""⟩]⟩
    (.contact ⟨"b2", "", "John", "Doe", "", "", "", "", "", "", ""⟩) sample_uuid (by decide)
    (by decide)

/-- C7. For every store, kind and record whose non-empty uid is the uid of a record of
that kind, the setter succeeds and returns that uid; the first record with the uid is
replaced by the given record as a whole, at its position, and the length of the vector,
every other record of it and the vectors of the other kinds are unchanged. -/
theorem upsert_known_uid (c : container) (e : element) (u : uuid) (hne : e.uid ≠ "")
    (hsome : ∃ x ∈ c.elements e.kind, x.uid = e.uid) :
    ∃ l1 x l2, c.elements e.kind = l1 ++ x :: l2 ∧ (∀ y ∈ l1, y.uid ≠ e.uid) ∧
      x.uid = e.uid ∧ (c.upsert e u).2 = .ok e.uid ∧
      (c.upsert e u).1.elements e.kind = l1 ++ e :: l2 ∧
      ((c.upsert e u).1.elements e.kind).length = (c.elements e.kind).length ∧
      ∀ k, k ≠ e.kind → (c.upsert e u).1.elements k = c.elements k := by
  obtain ⟨l1, x, l2, hl, hno, hx, hres, hel, hother⟩ := upsert_known_state c e u hne hsome
  exact ⟨l1, x, l2, hl, hno, hx, hres, hel, by rw [hel, hl]; simp, hother⟩

/-- A store with two notes and a new version of the second, at which `upsert_known_uid`
applies. -/
theorem upsert_known_uid_witness :
    ∃ l1 x l2,
      (container.mk [] [⟨"n1", "a", "", "x"⟩, ⟨"n2", "b", "", "y"⟩] [] []).elements
        (element.note ⟨"n2", "B", "work", "Y"⟩).kind = l1 ++ x :: l2 ∧
      (∀ y ∈ l1, y.uid ≠ (element.note ⟨"n2", "B", "work", "Y"⟩).uid) ∧
      x.uid = (element.note ⟨"n2", "B", "work", "Y"⟩).uid ∧
      ((container.mk [] [⟨"n1", "a", "", "x"⟩, ⟨"n2", "b", "", "y"⟩] [] []).upsert
        (.note ⟨"n2", "B", "work", "Y"⟩) sample_uuid).2 =
        .ok (element.note ⟨"n2", "B", "work", "Y"⟩).uid ∧
      ((container.mk [] [⟨"n1", "a", "", "x"⟩, ⟨"n2", "b", "", "y"⟩] [] []).upsert
        (.note ⟨"n2", "B", "work", "Y"⟩) sample_uuid).1.elements
        (element.note ⟨"n2", "B", "work", "Y"⟩).kind = l1 ++ .note ⟨"n2", "B", "work", "Y"⟩ :: l2 ∧
      (((container.mk [] [⟨"n1", "a", "", "x"⟩, ⟨"n2", "b", "", "y"⟩] [] []).upsert
        (.note ⟨"n2", "B", "work", "Y"⟩) sample_uuid).1.elements
        (element.note ⟨"n2", "B", "work", "Y"⟩).kind).length =
        ((container.mk [] [⟨"n1", "a", "", "x"⟩, ⟨"n2", "b", "", "y"⟩] [] []).elements
          (element.note ⟨"n2", "B", "work", "Y"⟩).kind).length ∧
      ∀ k, k ≠ (element.note ⟨"n2", "B", "work", "Y"⟩).kind →
        ((container.mk [] [⟨"n1", "a", "", "x"⟩, ⟨"n2", "b", "", "y"⟩] [] []).upsert
          (.note ⟨"n2", "B", "work", "Y"⟩) sample_uuid).1.elements k =
        (container.mk [] [⟨"n1", "a", "", "x"⟩, ⟨"n2", "b", "", "y"⟩] [] []).elements k :=
  upsert_known_uid ⟨[], [⟨"n1", "a", "", "x"⟩, ⟨"n2", "b", "", "y"⟩], [], []⟩
    (.note ⟨"n2", "B", "work", "Y"⟩) sample_uuid (by decide)
    ⟨.note ⟨"n2", "b", "", "y"⟩, by decide, by decide⟩

/-! ## Reading a tree -/

theorem get_child_error_of_lacks (t : ptree) (key : String) (h : ¬ t.has_child key) :
    t.get_child key = .error .ptree_bad_path := by
  have hnone : t.children.find? (fun kv => kv.1 == key) = none := by
    rw [List.find?_eq_none]
    intro kv hkv hp
    exact h ⟨kv, hkv, by simpa using hp⟩
  simp [ptree.get_child, hnone]

theorem has_child_of_get_child (t sub : ptree) (key : String)
    (h : t.get_child key = .ok sub) : t.has_child key := by
  by_contra hc
  rw [get_child_error_of_lacks t key hc] at h
  cases h

theorem has_child_of_get_string (t : ptree) (key v : String)
    (h : t.get_string key = .ok v) : t.has_child key := by
  unfold ptree.get_string at h
  split at h
  · next sub hsub => exact has_child_of_get_child t sub key hsub
  · cases h

theorem has_child_of_get_ptime (X : Extern) (t : ptree) (key : String) (v : ptime)
    (h : t.get_ptime X key = .ok v) : t.has_child key := by
  unfold ptree.get_ptime at h
  split at h
  · cases h
  · next sub hsub => exact has_child_of_get_child t sub key hsub

/-- A run of assignments that ends without exception has found every key. -/
theorem assign_fields_ok {ρ : Type} (tree : ptree) (fs : List (String × (ρ → String → ρ)))
    (r : ρ) (h : (assign_fields tree fs r).2 = .ok ()) :
    ∀ key ∈ fs.map Prod.fst, tree.has_child key := by
  induction fs generalizing r with
  | nil => simp
  | cons f fs ih =>
    obtain ⟨key, set⟩ := f
    unfold assign_fields at h
    split at h
    · next v hv =>
      intro g hg
      rcases List.mem_cons.mp hg with rfl | hg
      · exact has_child_of_get_string tree _ v hv
      · exact ih _ h g hg
    · cases h

theorem note_load_fields (r : note_type) (el : ptree)
    (h : (note_type.load r el).2 = .ok ()) : ∀ key ∈ note_fields, el.has_child key := by
  intro key hkey
  exact assign_fields_ok el _ r h key (by simpa [note_fields] using hkey)

theorem file_load_fields (r : file_type) (el : ptree)
    (h : (file_type.load r el).2 = .ok ()) : ∀ key ∈ file_fields, el.has_child key := by
  intro key hkey
  exact assign_fields_ok el _ r h key (by simpa [file_fields] using hkey)

theorem contact_load_fields (r : contact_type) (el : ptree)
    (h : (contact_type.load r el).2 = .ok ()) :
    ∀ key ∈ contact_fields, el.has_child key := by
  intro key hkey
  exact assign_fields_ok el _ r h key (by simpa [contact_fields] using hkey)

theorem login_load_fields (X : Extern) (r : login_type) (el : ptree)
    (h : (login_type.load X r el).2 = .ok ()) : ∀ key ∈ login_fields, el.has_child key := by
  unfold login_type.load at h
  split at h
  · cases h
  · next r2 _ heq =>
    have ha := assign_fields_ok el _ r (by rw [heq])
    split at h
    · next t ht =>
      intro key hkey
      simp only [login_fields, List.mem_cons, List.mem_singleton, List.not_mem_nil,
        or_false] at hkey
      rcases hkey with rfl | rfl | rfl | rfl | rfl | rfl | rfl
      · exact ha _ (by simp)
      · exact ha _ (by simp)
      · exact ha _ (by simp)
      · exact ha _ (by simp)
      · exact ha _ (by simp)
      · exact ha _ (by simp)
      · exact has_child_of_get_ptime X el _ t ht
    · cases h

/-- One loop of `load`: the vector grows by a leading part of the records the loop
attempts, by all of them when the loop ends without exception, and then every element was
loaded without exception. -/
theorem load_each_spec {ρ : Type} (init : ρ) (ld : ρ → ptree → ρ × Except ptree_error Unit)
    (children : List (String × ptree)) (items : List ρ) :
    ∃ n, (load_each init ld children items).1 =
        items ++ (children.map (fun value => (ld init value.2).1)).take n ∧
      ((load_each init ld children items).2 = .ok () →
        (load_each init ld children items).1 =
          items ++ children.map (fun value => (ld init value.2).1) ∧
        ∀ value ∈ children, (ld init value.2).2 = .ok ()) := by
  induction children generalizing items with
  | nil => exact ⟨0, by simp [load_each], fun _ => by simp [load_each]⟩
  | cons a rest ih =>
    unfold load_each
    split
    · next r _ hld =>
      obtain ⟨n, hn, hok⟩ := ih (items ++ [r])
      have hr : (ld init a.2).1 = r := by rw [hld]
      refine ⟨n + 1, ?_, ?_⟩
      · rw [hn]; simp [hr]
      · intro h
        obtain ⟨h1, h2⟩ := hok h
        refine ⟨by rw [h1]; simp [hr], ?_⟩
        intro value hv
        rcases List.mem_cons.mp hv with rfl | hv
        · rw [hld]
        · exact h2 value hv
    · next r e hld =>
      have hr : (ld init a.2).1 = r := by rw [hld]
      refine ⟨1, by simp [hr], ?_⟩
      intro h
      cases h

/-- One statement of `load`: the same for `load_array`. -/
theorem load_array_spec {ρ : Type} (tree : ptree) (name : String) (init : ρ)
    (ld : ρ → ptree → ρ × Except ptree_error Unit) (items : List ρ) :
    (∃ n, (load_array tree name init ld items).1 =
        items ++ (attempted tree name init ld).take n) ∧
    ((load_array tree name init ld items).2 = .ok () →
      (load_array tree name init ld items).1 = items ++ attempted tree name init ld ∧
      ∃ sub, tree.get_child name = .ok sub ∧
        ∀ value ∈ sub.children, (ld init value.2).2 = .ok ()) := by
  unfold load_array attempted
  cases hg : tree.get_child name with
  | error e =>
    refine ⟨⟨0, by simp⟩, ?_⟩
    intro h
    cases h
  | ok sub =>
    obtain ⟨n, hn, hok⟩ := load_each_spec init ld sub.children items
    refine ⟨⟨n, hn⟩, ?_⟩
    intro h
    obtain ⟨h1, h2⟩ := hok h
    exact ⟨h1, sub, rfl, h2⟩

/-- The state after the four loops: each vector has grown by a leading part of the
records its loop attempts. -/
theorem load_tree_prefix (X : Extern) (c : container) (tree : ptree) :
    ∃ n1 n2 n3 n4, (c.load_tree X tree).1 =
      { logins := c.logins ++
          (attempted tree "logins" login_type.init (login_type.load X)).take n1,
        notes := c.notes ++ (attempted tree "notes" note_type.init note_type.load).take n2,
        files := c.files ++ (attempted tree "files" file_type.init file_type.load).take n3,
        contacts := c.contacts ++
          (attempted tree "contacts" contact_type.init contact_type.load).take n4 } := by
  obtain ⟨⟨n1, h1⟩, _⟩ :=
    load_array_spec tree "logins" login_type.init (login_type.load X) c.logins
  obtain ⟨⟨n2, h2⟩, _⟩ := load_array_spec tree "notes" note_type.init note_type.load c.notes
  obtain ⟨⟨n3, h3⟩, _⟩ := load_array_spec tree "files" file_type.init file_type.load c.files
  obtain ⟨⟨n4, h4⟩, _⟩ :=
    load_array_spec tree "contacts" contact_type.init contact_type.load c.contacts
  unfold container.load_tree
  dsimp only
  split
  · exact ⟨n1, 0, 0, 0, by simp [h1]⟩
  · split
    · exact ⟨n1, n2, 0, 0, by simp [h1, h2]⟩
    · split
      · exact ⟨n1, n2, n3, 0, by simp [h1, h2, h3]⟩
      · exact ⟨n1, n2, n3, n4, by simp [h1, h2, h3, h4]⟩

/-- The four loops end without exception only when each of the four children is there
and each of their elements loads without exception; each vector has then grown by all
the records of its child. -/
theorem load_tree_ok (X : Extern) (c : container) (tree : ptree)
    (h : (c.load_tree X tree).2 = .ok ()) :
    (c.load_tree X tree).1 =
      { logins := c.logins ++ attempted tree "logins" login_type.init (login_type.load X),
        notes := c.notes ++ attempted tree "notes" note_type.init note_type.load,
        files := c.files ++ attempted tree "files" file_type.init file_type.load,
        contacts := c.contacts ++
          attempted tree "contacts" contact_type.init contact_type.load } ∧
    (∃ sub, tree.get_child "logins" = .ok sub ∧
      ∀ value ∈ sub.children, (login_type.load X login_type.init value.2).2 = .ok ()) ∧
    (∃ sub, tree.get_child "notes" = .ok sub ∧
      ∀ value ∈ sub.children, (note_type.load note_type.init value.2).2 = .ok ()) ∧
    (∃ sub, tree.get_child "files" = .ok sub ∧
      ∀ value ∈ sub.children, (file_type.load file_type.init value.2).2 = .ok ()) ∧
    (∃ sub, tree.get_child "contacts" = .ok sub ∧
      ∀ value ∈ sub.children, (contact_type.load contact_type.init value.2).2 = .ok ()) := by
  have s1 := (load_array_spec tree "logins" login_type.init (login_type.load X) c.logins).2
  have s2 := (load_array_spec tree "notes" note_type.init note_type.load c.notes).2
  have s3 := (load_array_spec tree "files" file_type.init file_type.load c.files).2
  have s4 :=
    (load_array_spec tree "contacts" contact_type.init contact_type.load c.contacts).2
  revert h
  unfold container.load_tree
  dsimp only
  split
  · intro h; cases h
  · next _ h1 =>
    split
    · intro h; cases h
    · next _ h2 =>
      split
      · intro h; cases h
      · next _ h3 =>
        intro h4
        obtain ⟨e1, g1⟩ := s1 h1
        obtain ⟨e2, g2⟩ := s2 h2
        obtain ⟨e3, g3⟩ := s3 h3
        obtain ⟨e4, g4⟩ := s4 h4
        exact ⟨by rw [e1, e2, e3, e4], g1, g2, g3, g4⟩

/-- A tree from which the four loops run without exception has the expected shape. -/
theorem not_misshapen_of_load_tree_ok (X : Extern) (c : container) (tree : ptree)
    (h : (c.load_tree X tree).2 = .ok ()) : ¬ tree.misshapen := by
  obtain ⟨_, ⟨s1, g1, f1⟩, ⟨s2, g2, f2⟩, ⟨s3, g3, f3⟩, ⟨s4, g4, f4⟩⟩ := load_tree_ok X c tree h
  rintro ⟨entry, hentry, hbad⟩
  simp only [document_schema, List.mem_cons, List.mem_singleton, List.not_mem_nil,
    or_false] at hentry
  rcases hentry with rfl | rfl | rfl | rfl
  · rcases hbad with hlack | ⟨sub, hsub, el, hel, key, hkey, hno⟩
    · exact hlack (has_child_of_get_child tree s1 _ g1)
    · rw [g1] at hsub
      cases hsub
      exact hno (login_load_fields X _ el.2 (f1 el hel) key hkey)
  · rcases hbad with hlack | ⟨sub, hsub, el, hel, key, hkey, hno⟩
    · exact hlack (has_child_of_get_child tree s2 _ g2)
    · rw [g2] at hsub
      cases hsub
      exact hno (note_load_fields _ el.2 (f2 el hel) key hkey)
  · rcases hbad with hlack | ⟨sub, hsub, el, hel, key, hkey, hno⟩
    · exact hlack (has_child_of_get_child tree s3 _ g3)
    · rw [g3] at hsub
      cases hsub
      exact hno (file_load_fields _ el.2 (f3 el hel) key hkey)
  · rcases hbad with hlack | ⟨sub, hsub, el, hel, key, hkey, hno⟩
    · exact hlack (has_child_of_get_child tree s4 _ g4)
    · rw [g4] at hsub
      cases hsub
      exact hno (contact_load_fields _ el.2 (f4 el hel) key hkey)

/-! ## Loading the store -/

/-- What `load` returns, by the outcome of the reader and of the four loops. -/
theorem load_outcome (X : Extern) (c : container) (password input : Bytes) :
    (X.read_json (aes.decrypt X password input) = none ∧
      c.load X password input = (container.init, .error .corrupted_input_error)) ∨
    (∃ tree, X.read_json (aes.decrypt X password input) = some tree ∧
      (c.load X password input).1 = (container.init.load_tree X tree).1 ∧
      (((container.init.load_tree X tree).2 = .ok () ∧
          (c.load X password input).2 = .ok ()) ∨
        ((container.init.load_tree X tree).2 ≠ .ok () ∧
          (c.load X password input).2 = .error .corrupted_input_error))) := by
  unfold container.load
  dsimp only
  cases hr : X.read_json (aes.decrypt X password input) with
  | none => left; exact ⟨rfl, rfl⟩
  | some tree =>
    right
    refine ⟨tree, rfl, ?_⟩
    have hclear : c.clear = container.init := rfl
    simp only [hclear]
    rcases hlt : container.init.load_tree X tree with ⟨c', r⟩
    cases r with
    | ok u => simp
    | error e => simp

/-- C4. For every password and every input, the empty one and those of at most one cipher
block included, `load` either returns normally or throws `corrupted_input_error`: the
decryption returns a text for every input, and every exception of the `try` block is
turned into `corrupted_input_error`. -/
theorem load_error_kind (X : Extern) (c : container) (password input : Bytes) :
    (c.load X password input).2 = .ok () ∨
    (c.load X password input).2 = .error .corrupted_input_error := by
  rcases load_outcome X c password input with ⟨_, h⟩ | ⟨tree, _, _, ⟨_, h⟩ | ⟨_, h⟩⟩
  · right; rw [h]
  · left; exact h
  · right; exact h

/-- C3. `load` throws `corrupted_input_error` whenever the decrypted text does not parse,
or the parsed tree lacks one of the children "logins", "notes", "files", "contacts", or
an element of one of them lacks one of the keys of its kind. -/
theorem load_corrupted (X : Extern) (c : container) (password input : Bytes)
    (h : X.read_json (aes.decrypt X password input) = none ∨
      ∃ tree, X.read_json (aes.decrypt X password input) = some tree ∧ tree.misshapen) :
    (c.load X password input).2 = .error .corrupted_input_error := by
  rcases load_outcome X c password input with ⟨_, hl⟩ | ⟨tree, hr, _, ⟨hok, _⟩ | ⟨_, hl⟩⟩
  · rw [hl]
  · exfalso
    rcases h with h | ⟨tree2, h, hm⟩
    · rw [hr] at h
      cases h
    · rw [hr] at h
      cases h
      exact not_misshapen_of_load_tree_ok X container.init tree hok hm
  · exact hl

/-- The text `{}` read as the empty tree, which has none of the four children:
`load_corrupted` applies. -/
theorem load_corrupted_witness :
    (test_double [123, 125] (some (.mk "" []))).read_json
        (aes.decrypt (test_double [123, 125] (some (.mk "" []))) [] [123, 125]) =
      some (.mk "" []) ∧
    (container.init.load (test_double [123, 125] (some (.mk "" []))) [] [123, 125]).2 =
      .error .corrupted_input_error :=
  ⟨rfl, load_corrupted (test_double [123, 125] (some (.mk "" []))) container.init []
    [123, 125]
    (Or.inr ⟨.mk "" [], rfl, ("logins", login_fields), by simp [document_schema],
      Or.inl (by simp [ptree.has_child, ptree.children])⟩)⟩

/-- C2 (as amended). `load` is not atomic. It empties the store before anything else, so
the state after it, failed or not, does not depend on the state before; the store is empty
after a text that does not parse; and after a text that parses each vector holds a leading
part of the records attempted from the corresponding child of the document, in the
order of the document, the last of them possibly populated in part. -/
theorem load_state_after (X : Extern) (c : container) (password input : Bytes) :
    (∀ c2 : container, c2.load X password input = c.load X password input) ∧
    (X.read_json (aes.decrypt X password input) = none →
      c.load X password input = (container.init, .error .corrupted_input_error)) ∧
    (∀ tree, X.read_json (aes.decrypt X password input) = some tree →
      ∃ n1 n2 n3 n4, (c.load X password input).1 =
        { logins := (attempted tree "logins" login_type.init (login_type.load X)).take n1,
          notes := (attempted tree "notes" note_type.init note_type.load).take n2,
          files := (attempted tree "files" file_type.init file_type.load).take n3,
          contacts :=
            (attempted tree "contacts" contact_type.init contact_type.load).take n4 }) := by
  refine ⟨fun _ => rfl, ?_, ?_⟩
  · intro hnone
    rcases load_outcome X c password input with ⟨_, hl⟩ | ⟨tree, hr, _⟩
    · exact hl
    · rw [hr] at hnone
      cases hnone
  · intro tree htree
    rcases load_outcome X c password input with ⟨hr, _⟩ | ⟨tree2, hr, hst, _⟩
    · rw [hr] at htree
      cases htree
    · rw [hr] at htree
      cases htree
      obtain ⟨n1, n2, n3, n4, hp⟩ := load_tree_prefix X container.init tree
      refine ⟨n1, n2, n3, n4, ?_⟩
      rw [hst, hp]
      simp [container.init]

/-- C2 (as stated) fails. The store holds one note; the document read has a complete login
"a" and a login with nothing but the uid "b", and no other child. `load` throws
`corrupted_input_error` and leaves a store that holds the login "a" and a login that has
the uid "b" and is otherwise empty: the note is gone, and no document was fully
parsed. -/
theorem load_failure_partial :
    (container.mk [] [⟨"n1", "pin", "bank", "1234"⟩] [] []).load
        (test_double [1]
          (some (.mk "" [("logins", .mk "" [
            ("", .mk "" [("uid", .mk "a" []), ("title", .mk "mail" []),
              ("category", .mk "" []), ("username", .mk "jane" []),
              ("password", .mk "secret" []), ("url", .mk "" []),
              ("last_change", .mk "not-a-date-time" [])]),
            ("", .mk "" [("uid", .mk "b" [])])])])))
        [] [1] =
      (container.mk [⟨"a", "mail", "", "jane", "secret", "", not_a_date_time⟩,
          ⟨"b", "", "", "", "", "", not_a_date_time⟩] [] [] [],
        .error .corrupted_input_error) := by
  decide

/-! ## Uniqueness of uids -/

theorem nodup_take_map {α β : Type} (f : α → β) (l : List α) (n : Nat)
    (h : (l.map f).Nodup) : ((l.take n).map f).Nodup := by
  rw [List.map_take]
  exact h.sublist (List.take_sublist n _)

/-- The state after `load` has distinct uids when the document has. -/
theorem load_uids_distinct (X : Extern) (c : container) (password input : Bytes)
    (hdoc : ∀ tree, X.read_json (aes.decrypt X password input) = some tree →
      tree.uids_distinct X) :
    (c.load X password input).1.uids_distinct := by
  rcases load_outcome X c password input with ⟨_, hl⟩ | ⟨tree, hr, hst, _⟩
  · rw [hl]
    intro k
    cases k <;> simp [container.elements, container.init]
  · obtain ⟨h1, h2, h3, h4⟩ := hdoc tree hr
    obtain ⟨n1, n2, n3, n4, hp⟩ := load_tree_prefix X container.init tree
    rw [hst, hp]
    intro k
    cases k
    · simpa [container.elements, container.init, Function.comp_def, element.uid] using
        nodup_take_map login_type.uid _ n1 h1
    · simpa [container.elements, container.init, Function.comp_def, element.uid] using
        nodup_take_map note_type.uid _ n2 h2
    · simpa [container.elements, container.init, Function.comp_def, element.uid] using
        nodup_take_map file_type.uid _ n3 h3
    · simpa [container.elements, container.init, Function.comp_def, element.uid] using
        nodup_take_map contact_type.uid _ n4 h4

/-- A setter keeps the uids distinct when the identifier it draws, if it draws one, is
not in use in the vector. -/
theorem upsert_uids_distinct (c : container) (e : element) (u : uuid)
    (hc : c.uids_distinct)
    (hfresh : e.uid = "" → ∀ x ∈ c.elements e.kind, x.uid ≠ uuid_to_string u) :
    (c.upsert e u).1.uids_distinct := by
  by_cases he : e.uid = ""
  · obtain ⟨_, hel, hother⟩ := upsert_new_state c e u he
    have huid : (e.with_uid (uuid_to_string u)).uid = uuid_to_string u := by
      cases e <;> rfl
    intro k
    by_cases hk : k = e.kind
    · subst hk
      rw [hel, List.map_append, List.map_singleton, huid]
      refine List.Nodup.append (hc e.kind) (List.nodup_singleton _) ?_
      rw [List.disjoint_singleton]
      intro hmem
      obtain ⟨x, hx, hxu⟩ := List.mem_map.mp hmem
      exact hfresh he x hx hxu
    · rw [hother k hk]
      exact hc k
  · by_cases hsome : ∃ x ∈ c.elements e.kind, x.uid = e.uid
    · obtain ⟨l1, x, l2, hl, _, hx, _, hel, hother⟩ := upsert_known_state c e u he hsome
      intro k
      by_cases hk : k = e.kind
      · subst hk
        have h := hc e.kind
        rw [hl] at h
        rw [hel]
        simpa [hx] using h
      · rw [hother k hk]
        exact hc k
    · have hno : ∀ x ∈ c.elements e.kind, x.uid ≠ e.uid := by
        intro x hx hxu
        exact hsome ⟨x, hx, hxu⟩
      rw [upsert_unknown_state c e u he hno]
      exact hc

/-- C8 (as amended). No two records of one kind have the same uid in any state the store
reaches from the empty store through `clear`, through `load` of documents whose uids are
pairwise distinct within each of the four children, and through setters whose drawn
identifier differs from the uids in use in the vector (an update draws none and changes
no uid). -/
theorem uids_distinct_of_reachable_fresh (X : Extern) (c : container)
    (h : reachable_fresh X c) : c.uids_distinct := by
  induction h with
  | init =>
    intro k
    cases k <;> simp [container.elements, container.init]
  | clear c _ _ =>
    intro k
    cases k <;> simp [container.elements, container.clear]
  | load c password input _ hdoc _ => exact load_uids_distinct X c password input hdoc
  | upsert c e u _ hfresh ih => exact upsert_uids_distinct c e u ih hfresh

/-- Two notes stored one after the other under different identifiers: a state at which
`uids_distinct_of_reachable_fresh` applies. -/
theorem uids_distinct_witness :
    (((container.init.upsert (.note ⟨"", "a", "", ""⟩) sample_uuid).1.upsert
      (.note ⟨"", "b", "", ""⟩) other_uuid).1).uids_distinct :=
  uids_distinct_of_reachable_fresh (test_double [] none) _
    (reachable_fresh.upsert _ (.note ⟨"", "b", "", ""⟩) other_uuid
      (reachable_fresh.upsert _ (.note ⟨"", "a", "", ""⟩) sample_uuid reachable_fresh.init
        (by decide))
      (by decide))

/-- C8 (as stated) fails. A document whose "notes" hold two notes under the uid "n" loads
without exception and leaves two notes with the same uid; and two notes stored one after
the other under the same drawn identifier have the same uid. -/
theorem uids_not_distinct :
    (container.init.load (test_double [1] (some duplicate_uid_tree)) [] [1] =
        (container.mk [] [⟨"n", "a", "", "x"⟩, ⟨"n", "b", "", "y"⟩] [] [], .ok ()) ∧
      reachable (test_double [1] (some duplicate_uid_tree))
        (container.mk [] [⟨"n", "a", "", "x"⟩, ⟨"n", "b", "", "y"⟩] [] []) ∧
      ¬ (container.mk [] [⟨"n", "a", "", "x"⟩, ⟨"n", "b", "", "y"⟩] [] []).uids_distinct) ∧
    (reachable (test_double [] none)
        ((container.init.upsert (.note ⟨"", "a", "", ""⟩) sample_uuid).1.upsert
          (.note ⟨"", "b", "", ""⟩) sample_uuid).1 ∧
      ¬ ((container.init.upsert (.note ⟨"", "a", "", ""⟩) sample_uuid).1.upsert
          (.note ⟨"", "b", "", ""⟩) sample_uuid).1.uids_distinct) := by
  refine ⟨⟨by decide, ?_, ?_⟩, ?_, ?_⟩
  · exact reachable.load (X := test_double [1] (some duplicate_uid_tree)) container.init []
      [1] reachable.init
  · intro h
    exact absurd (h .note) (by decide)
  · exact reachable.upsert _ _ _ (reachable.upsert _ _ _ reachable.init)
  · intro h
    exact absurd (h .note) (by decide)

/-! ## The cipher -/

theorem xor_xor_left (x y : Nat) : (x ^^^ y) ^^^ x = y := by
  rw [Nat.xor_comm x y, Nat.xor_cancel_right]

theorem xorbuf_length (a b : Bytes) : (aes.xorbuf a b).length = a.length := by
  induction a generalizing b with
  | nil => cases b <;> simp [aes.xorbuf]
  | cons x a ih => cases b <;> simp [aes.xorbuf, ih]

theorem xorbuf_cancel (a b : Bytes) (h : a.length = b.length) :
    aes.xorbuf (aes.xorbuf a b) a = b := by
  induction a generalizing b with
  | nil =>
    cases b with
    | nil => simp [aes.xorbuf]
    | cons y b => simp at h
  | cons x a ih =>
    cases b with
    | nil => simp at h
    | cons y b =>
      simp only [List.length_cons, Nat.add_right_cancel_iff] at h
      simp [aes.xorbuf, ih b h, xor_xor_left]

theorem xorbuf_steal (a b : Bytes) (h : b.length ≤ a.length) :
    (aes.xorbuf (aes.xorbuf a b) (a.take b.length)).take b.length = b ∧
    (aes.xorbuf (aes.xorbuf a b) (a.take b.length)).drop b.length = a.drop b.length := by
  induction a generalizing b with
  | nil =>
    cases b with
    | nil => simp [aes.xorbuf]
    | cons y b => simp at h
  | cons x a ih =>
    cases b with
    | nil => simp [aes.xorbuf]
    | cons y b =>
      simp only [List.length_cons, Nat.add_le_add_iff_right] at h
      obtain ⟨h1, h2⟩ := ih b h
      simp [aes.xorbuf, h1, h2, xor_xor_left]

/-- Decryption undoes encryption of a message longer than one block. -/
theorem cbc_cts_roundtrip (E D : Bytes → Bytes)
    (hE : ∀ block, block.length = 16 → (E block).length = 16 ∧ D (E block) = block)
    (n : Nat) (reg input : Bytes) (hreg : reg.length = 16) (hn : input.length ≤ n)
    (hlong : 16 < input.length) :
    ∃ out, aes.cbc_cts_encrypt E n reg input = .ok out ∧ out.length = input.length ∧
      aes.cbc_cts_decrypt D n reg out = input := by
  induction n generalizing reg input with
  | zero => omega
  | succ n ih =>
    have hP1 : (input.take 16).length = 16 := by simp; omega
    have hx1 : (aes.xorbuf reg (input.take 16)).length = 16 := by
      rw [xorbuf_length]; exact hreg
    obtain ⟨hr1, hD1⟩ := hE _ hx1
    by_cases h32 : input.length ≤ 32
    · have hd : (input.drop 16).length ≤ (E (aes.xorbuf reg (input.take 16))).length := by
        simp; omega
      have hx2 : (aes.xorbuf (E (aes.xorbuf reg (input.take 16))) (input.drop 16)).length
          = 16 := by rw [xorbuf_length]; exact hr1
      obtain ⟨hr2, hD2⟩ := hE _ hx2
      obtain ⟨hs1, hs2⟩ := xorbuf_steal _ _ hd
      refine ⟨E (aes.xorbuf (E (aes.xorbuf reg (input.take 16))) (input.drop 16)) ++
        (E (aes.xorbuf reg (input.take 16))).take (input.drop 16).length, ?_, ?_, ?_⟩
      · unfold aes.cbc_cts_encrypt
        simp only [aes.BLOCKSIZE]
        rw [if_neg (by omega), if_neg (by omega), if_pos (by omega)]
      · simp [hr2, hr1]; omega
      · unfold aes.cbc_cts_decrypt
        simp only [aes.BLOCKSIZE]
        have hlen : (E (aes.xorbuf (E (aes.xorbuf reg (input.take 16))) (input.drop 16)) ++
          (E (aes.xorbuf reg (input.take 16))).take (input.drop 16).length).length =
            input.length := by simp [hr2, hr1]; omega
        rw [if_neg (by omega), if_neg (by omega), if_pos (by omega)]
        have htake : (E (aes.xorbuf (E (aes.xorbuf reg (input.take 16))) (input.drop 16)) ++
          (E (aes.xorbuf reg (input.take 16))).take (input.drop 16).length).take 16 =
            E (aes.xorbuf (E (aes.xorbuf reg (input.take 16))) (input.drop 16)) := by
          rw [List.take_append_of_le_length (by omega), List.take_of_length_le (by omega)]
        have hdrop : (E (aes.xorbuf (E (aes.xorbuf reg (input.take 16))) (input.drop 16)) ++
          (E (aes.xorbuf reg (input.take 16))).take (input.drop 16).length).drop 16 =
            (E (aes.xorbuf reg (input.take 16))).take (input.drop 16).length := by
          rw [List.drop_append_of_le_length (by omega), List.drop_of_length_le (by omega)]
          simp
        have hpl : ((E (aes.xorbuf reg (input.take 16))).take (input.drop 16).length).length
            = (input.drop 16).length := by
          rw [List.length_take]; omega
        simp only [htake, hdrop, hD2, hpl, hs1, hs2, List.take_append_drop, hD1]
        rw [xorbuf_cancel reg (input.take 16) (by omega), List.take_append_drop]
    · obtain ⟨out, ho, hol, hod⟩ := ih (E (aes.xorbuf reg (input.take 16))) (input.drop 16)
        hr1 (by simp; omega) (by simp; omega)
      refine ⟨E (aes.xorbuf reg (input.take 16)) ++ out, ?_, ?_, ?_⟩
      · unfold aes.cbc_cts_encrypt
        simp only [aes.BLOCKSIZE]
        rw [if_neg (by omega), if_neg (by omega), if_neg (by omega)]
        simp only [ho]
      · simp [hol, hr1]; omega
      · unfold aes.cbc_cts_decrypt
        simp only [aes.BLOCKSIZE]
        have hlen : (E (aes.xorbuf reg (input.take 16)) ++ out).length = input.length := by
          simp [hol, hr1]; omega
        rw [if_neg (by omega), if_neg (by omega), if_neg (by omega)]
        have htake : (E (aes.xorbuf reg (input.take 16)) ++ out).take 16 =
            E (aes.xorbuf reg (input.take 16)) := by
          rw [List.take_append_of_le_length (by omega), List.take_of_length_le (by omega)]
        have hdrop : (E (aes.xorbuf reg (input.take 16)) ++ out).drop 16 = out := by
          rw [List.drop_append_of_le_length (by omega), List.drop_of_length_le (by omega)]
          simp
        simp only [htake, hdrop, hD1, hod]
        rw [xorbuf_cancel reg (input.take 16) (by omega), List.take_append_drop]

/-! ## Saving and loading again -/

theorem note_load_of_save (v r : note_type) :
    note_type.load r v.save = (v, .ok ()) := by
  simp [note_type.load, note_type.save, assign_fields, ptree.put, ptree.init, ptree.get_string,
    ptree.get_child, ptree.children, ptree.data, put_first]

theorem file_load_of_save (v r : file_type) :
    file_type.load r v.save = ({ v with mapped_file := r.mapped_file }, .ok ()) := by
  simp [file_type.load, file_type.save, assign_fields, ptree.put, ptree.init, ptree.get_string,
    ptree.get_child, ptree.children, ptree.data, put_first]

theorem contact_load_of_save (v r : contact_type) :
    contact_type.load r v.save = (v, .ok ()) := by
  simp [contact_type.load, contact_type.save, assign_fields, ptree.put, ptree.init,
    ptree.get_string, ptree.get_child, ptree.children, ptree.data, put_first]

theorem login_load_of_save (X : Extern) (v r : login_type)
    (ht : X.ptime_of_string (X.ptime_to_string v.last_change) = some v.last_change) :
    login_type.load X r (v.save X) = (v, .ok ()) := by
  simp [login_type.load, login_type.save, assign_fields, ptree.put, ptree.init,
    ptree.get_string, ptree.get_ptime, ptree.get_child, ptree.children, ptree.data, put_first,
    ht]

theorem children_foldl_push_back {ρ : Type} (f : ρ → ptree) (l : List ρ) (t : ptree) :
    (l.foldl (fun t value => t.push_back "" (f value)) t).children =
      t.children ++ l.map (fun value => ("", f value)) := by
  induction l generalizing t with
  | nil => simp
  | cons a l ih =>
    rw [List.foldl_cons, ih]
    cases t
    simp [ptree.push_back, ptree.children]

/-- One loop of `load` over elements that all load without exception. -/
theorem load_each_all {ρ : Type} (init : ρ) (ld : ρ → ptree → ρ × Except ptree_error Unit)
    (children : List (String × ptree)) (items : List ρ)
    (h : ∀ value ∈ children, (ld init value.2).2 = .ok ()) :
    load_each init ld children items =
      (items ++ children.map (fun value => (ld init value.2).1), .ok ()) := by
  induction children generalizing items with
  | nil => simp [load_each]
  | cons a rest ih =>
    have ha := h a (List.mem_cons_self _ _)
    unfold load_each
    split
    · next r _ hld =>
      rw [ih (items ++ [r]) (fun value hv => h value (List.mem_cons_of_mem _ hv))]
      simp [hld]
    · next r e hld =>
      rw [hld] at ha
      cases ha

/-- The four loops over a tree that has the four children, all of whose elements load
without exception. -/
theorem load_tree_all (X : Extern) (c : container) (tree s1 s2 s3 s4 : ptree)
    (g1 : tree.get_child "logins" = .ok s1)
    (f1 : ∀ value ∈ s1.children, (login_type.load X login_type.init value.2).2 = .ok ())
    (g2 : tree.get_child "notes" = .ok s2)
    (f2 : ∀ value ∈ s2.children, (note_type.load note_type.init value.2).2 = .ok ())
    (g3 : tree.get_child "files" = .ok s3)
    (f3 : ∀ value ∈ s3.children, (file_type.load file_type.init value.2).2 = .ok ())
    (g4 : tree.get_child "contacts" = .ok s4)
    (f4 : ∀ value ∈ s4.children, (contact_type.load contact_type.init value.2).2 = .ok ()) :
    c.load_tree X tree =
      ({ logins := c.logins ++
            s1.children.map (fun value => (login_type.load X login_type.init value.2).1),
         notes := c.notes ++
            s2.children.map (fun value => (note_type.load note_type.init value.2).1),
         files := c.files ++
            s3.children.map (fun value => (file_type.load file_type.init value.2).1),
         contacts := c.contacts ++
            s4.children.map (fun value => (contact_type.load contact_type.init value.2).1) },
        .ok ()) := by
  unfold container.load_tree load_array
  simp only [g1, g2, g3, g4, load_each_all _ _ _ _ f1, load_each_all _ _ _ _ f2,
    load_each_all _ _ _ _ f3, load_each_all _ _ _ _ f4]

/-- The tree `save` builds, loaded by the four loops into an empty store: the store that
was saved, with no file mapped. -/
theorem load_tree_save_tree (X : Extern) (C : container)
    (htime : ∀ l ∈ C.logins,
      X.ptime_of_string (X.ptime_to_string l.last_change) = some l.last_change) :
    container.init.load_tree X (C.save_tree X) =
      ({ C with files := C.files.map (fun f => { f with mapped_file := "" }) }, .ok ()) := by
  have g1 : (C.save_tree X).get_child "logins" = .ok
      (C.logins.foldl (fun t value => t.push_back "" (value.save X)) ptree.init) := by
    simp [container.save_tree, ptree.add_child, ptree.get_child, ptree.children, ptree.init]
  have g2 : (C.save_tree X).get_child "notes" = .ok
      (C.notes.foldl (fun t value => t.push_back "" value.save) ptree.init) := by
    simp [container.save_tree, ptree.add_child, ptree.get_child, ptree.children, ptree.init]
  have g3 : (C.save_tree X).get_child "files" = .ok
      (C.files.foldl (fun t value => t.push_back "" value.save) ptree.init) := by
    simp [container.save_tree, ptree.add_child, ptree.get_child, ptree.children, ptree.init]
  have g4 : (C.save_tree X).get_child "contacts" = .ok
      (C.contacts.foldl (fun t value => t.push_back "" value.save) ptree.init) := by
    simp [container.save_tree, ptree.add_child, ptree.get_child, ptree.children, ptree.init]
  have hinit : ptree.init.children = [] := rfl
  rw [load_tree_all X container.init (C.save_tree X) _ _ _ _ g1 ?_ g2 ?_ g3 ?_ g4 ?_]
  · simp only [children_foldl_push_back, hinit, List.nil_append, List.map_map,
      container.init]
    have e1 : C.logins.map ((fun value : String × ptree =>
        (login_type.load X login_type.init value.2).1) ∘ fun value => ("", value.save X)) =
        C.logins := by
      conv_rhs => rw [← List.map_id C.logins]
      apply List.map_congr_left
      intro l hl
      simp [login_load_of_save X l login_type.init (htime l hl)]
    have e2 : C.notes.map ((fun value : String × ptree =>
        (note_type.load note_type.init value.2).1) ∘ fun value => ("", value.save)) =
        C.notes := by
      conv_rhs => rw [← List.map_id C.notes]
      apply List.map_congr_left
      intro l _
      simp [note_load_of_save]
    have e3 : C.files.map ((fun value : String × ptree =>
        (file_type.load file_type.init value.2).1) ∘ fun value => ("", value.save)) =
        C.files.map (fun f => { f with mapped_file := "" }) := by
      apply List.map_congr_left
      intro l _
      simp [file_load_of_save, file_type.init]
    have e4 : C.contacts.map ((fun value : String × ptree =>
        (contact_type.load contact_type.init value.2).1) ∘ fun value => ("", value.save)) =
        C.contacts := by
      conv_rhs => rw [← List.map_id C.contacts]
      apply List.map_congr_left
      intro l _
      simp [contact_load_of_save]
    simp only [e1, e2, e3, e4, List.nil_append]
  · intro value hv
    rw [children_foldl_push_back] at hv
    simp only [hinit, List.nil_append, List.mem_map] at hv
    obtain ⟨l, hl, rfl⟩ := hv
    simp [login_load_of_save X l login_type.init (htime l hl)]
  · intro value hv
    rw [children_foldl_push_back] at hv
    simp only [hinit, List.nil_append, List.mem_map] at hv
    obtain ⟨l, _, rfl⟩ := hv
    simp [note_load_of_save]
  · intro value hv
    rw [children_foldl_push_back] at hv
    simp only [hinit, List.nil_append, List.mem_map] at hv
    obtain ⟨l, _, rfl⟩ := hv
    simp [file_load_of_save]
  · intro value hv
    rw [children_foldl_push_back] at hv
    simp only [hinit, List.nil_append, List.mem_map] at hv
    obtain ⟨l, _, rfl⟩ := hv
    simp [contact_load_of_save]

/-- Decryption undoes encryption under the same password, for a message longer than one
block and block functions that invert each other. -/
theorem aes_decrypt_encrypt (X : Extern) (password input : Bytes)
    (haes : ∀ key block, block.length = 16 →
      (X.aes_encrypt_block key block).length = 16 ∧
      X.aes_decrypt_block key (X.aes_encrypt_block key block) = block)
    (hlong : 16 < input.length) :
    ∃ out, aes.encrypt X password input = .ok out ∧ out.length = input.length ∧
      aes.decrypt X password out = input := by
  obtain ⟨out, h1, h2, h3⟩ := cbc_cts_roundtrip
    (X.aes_encrypt_block (aes.create_key password))
    (X.aes_decrypt_block (aes.create_key password)) (haes _) input.length aes.iv input
    (by simp [aes.iv, aes.BLOCKSIZE]) le_rfl hlong
  refine ⟨out, h1, h2, ?_⟩
  unfold aes.decrypt
  rw [h2]
  exact h3

/-- C1 (as amended). For every store and password, when the library's writer and reader
agree on the tree that is saved (the text written is longer than one cipher block and
reads back as that tree), the time of every login reads back from its textual form and
the block functions of the cipher invert each other, `save` returns bytes, and `load` of
those bytes under the same password succeeds and leaves the saved store with the
`mapped_file` of every file emptied: every record, in order, with every field that `save`
writes. -/
theorem load_save (X : Extern) (C c0 : container) (password : Bytes)
    (haes : ∀ key block, block.length = 16 →
      (X.aes_encrypt_block key block).length = 16 ∧
      X.aes_decrypt_block key (X.aes_encrypt_block key block) = block)
    (hlen : 16 < (X.write_json (C.save_tree X)).length)
    (hjson : X.read_json (X.write_json (C.save_tree X)) = some (C.save_tree X))
    (htime : ∀ l ∈ C.logins,
      X.ptime_of_string (X.ptime_to_string l.last_change) = some l.last_change) :
    ∃ bytes, C.save X password = .ok bytes ∧
      c0.load X password bytes =
        ({ C with files := C.files.map (fun f => { f with mapped_file := "" }) },
          .ok ()) := by
  obtain ⟨out, h1, _, h3⟩ :=
    aes_decrypt_encrypt X password (X.write_json (C.save_tree X)) haes hlen
  refine ⟨out, h1, ?_⟩
  have hclear : c0.clear = container.init := rfl
  unfold container.load
  simp only [h3, hjson, hclear, load_tree_save_tree X C htime]

/-- The sample store under the stand-in library: `load_save` applies. -/
theorem load_save_witness :
    ∃ bytes, sample_store.save (test_double sample_text (some sample_tree)) [112, 119] =
        .ok bytes ∧
      container.init.load (test_double sample_text (some sample_tree)) [112, 119] bytes =
        ({ sample_store with
            files := sample_store.files.map (fun f => { f with mapped_file := "" }) },
          .ok ()) :=
  load_save (test_double sample_text (some sample_tree)) sample_store container.init
    [112, 119] (fun _ _ h => ⟨h, rfl⟩) (by decide) rfl (by decide)

/-- C1 (as stated) fails for a store with a mapped file: the sample store is saved and
loaded again under the same password without exception, and the loaded store differs from
the saved one, its file having an empty `mapped_file`. -/
theorem load_save_mapped_file :
    ∃ bytes, sample_store.save (test_double sample_text (some sample_tree)) [112, 119] =
        .ok bytes ∧
      (container.init.load (test_double sample_text (some sample_tree)) [112, 119]
        bytes).2 = .ok () ∧
      (container.init.load (test_double sample_text (some sample_tree)) [112, 119]
        bytes).1 ≠ sample_store ∧
      (container.init.load (test_double sample_text (some sample_tree)) [112, 119]
        bytes).1.files = [⟨"f1", "scan", "", "aGk=", ""⟩] :=
  ⟨_, rfl, by decide, by decide, by decide⟩
/-! ## Elements by category -/

theorem first_such_cons {α : Type} (p : α → Prop) (a : α) (l : List α) (v : α) :
    first_such p (a :: l) v ↔ (p a ∧ v = a) ∨ (¬ p a ∧ first_such p l v) := by
  constructor
  · rintro ⟨l1, l2, hl, hv, hno⟩
    cases l1 with
    | nil =>
      simp only [List.nil_append, List.cons.injEq] at hl
      left
      exact ⟨hl.1 ▸ hv, hl.1.symm⟩
    | cons b l1 =>
      simp only [List.cons_append, List.cons.injEq] at hl
      right
      refine ⟨hl.1 ▸ hno b (List.mem_cons_self _ _), l1, l2, hl.2, hv, ?_⟩
      intro x hx
      exact hno x (List.mem_cons_of_mem _ hx)
  · rintro (⟨ha, rfl⟩ | ⟨ha, l1, l2, hl, hv, hno⟩)
    · exact ⟨[], l, rfl, ha, by simp⟩
    · refine ⟨a :: l1, l2, by simp [hl], hv, ?_⟩
      intro x hx
      rcases List.mem_cons.mp hx with rfl | hx
      · exact ha
      · exact hno x hx

theorem first_such_map {α β : Type} (p : α → Prop) (q : β → Prop) (f : α → β)
    (hpq : ∀ x, q (f x) ↔ p x) (l : List α) (e : β) :
    first_such q (l.map f) e ↔ ∃ v, first_such p l v ∧ f v = e := by
  induction l with
  | nil =>
    constructor
    · rintro ⟨l1, l2, hl, _⟩
      simp at hl
    · rintro ⟨v, ⟨l1, l2, hl, _⟩, _⟩
      simp at hl
  | cons a l ih =>
    rw [List.map_cons, first_such_cons, ih]
    constructor
    · rintro (⟨ha, rfl⟩ | ⟨ha, v, hv, rfl⟩)
      · exact ⟨a, (first_such_cons p a l a).mpr (Or.inl ⟨(hpq a).mp ha, rfl⟩), rfl⟩
      · exact ⟨v, (first_such_cons p a l v).mpr (Or.inr ⟨fun h => ha ((hpq a).mpr h), hv⟩),
          rfl⟩
    · rintro ⟨v, hv, rfl⟩
      rcases (first_such_cons p a l v).mp hv with ⟨ha, rfl⟩ | ⟨ha, hv⟩
      · exact Or.inl ⟨(hpq v).mpr ha, rfl⟩
      · exact Or.inr ⟨fun h => ha ((hpq a).mp h), v, hv, rfl⟩

theorem std_map_insert_sorted (k v : String) (m : List (String × String))
    (hm : (m.map Prod.fst).Pairwise (· < ·)) :
    ((std_map_insert k v m).map Prod.fst).Pairwise (· < ·) := by
  induction m with
  | nil => simp [std_map_insert]
  | cons a m ih =>
    rw [List.map_cons] at hm
    have ha := (List.pairwise_cons.mp hm).1
    have hm' := (List.pairwise_cons.mp hm).2
    unfold std_map_insert
    by_cases h1 : k < a.1
    · simp only [h1, if_true, List.map_cons]
      refine List.pairwise_cons.mpr ⟨?_, hm⟩
      intro z hz
      rcases List.mem_cons.mp hz with rfl | hz
      · exact h1
      · exact lt_trans h1 (ha z hz)
    · by_cases h2 : a.1 < k
      · simp only [h1, h2, if_false, if_true, List.map_cons]
        refine List.pairwise_cons.mpr ⟨?_, ih hm'⟩
        intro z hz
        rcases (mem_keys_std_map_insert k v z m).mp hz with rfl | hz
        · exact h2
        · exact ha z hz
      · simp only [h1, h2, if_false, List.map_cons]
        exact hm

/-- The entries of a map after `insert`: those it had, and the new one when its key was
not there. -/
theorem mem_std_map_insert (k v : String) (m : List (String × String))
    (hm : (m.map Prod.fst).Pairwise (· < ·)) (e : String × String) :
    e ∈ std_map_insert k v m ↔ e ∈ m ∨ (e = (k, v) ∧ k ∉ m.map Prod.fst) := by
  induction m with
  | nil => simp [std_map_insert]
  | cons a m ih =>
    rw [List.map_cons] at hm
    have ha := (List.pairwise_cons.mp hm).1
    have hm' := (List.pairwise_cons.mp hm).2
    unfold std_map_insert
    by_cases h1 : k < a.1
    · have hk : k ∉ (a :: m).map Prod.fst := by
        rw [List.map_cons]
        intro hmem
        rcases List.mem_cons.mp hmem with h | h
        · exact absurd (h ▸ h1) (lt_irrefl _)
        · exact absurd (lt_trans h1 (ha k h)) (lt_irrefl _)
      simp only [h1, if_true, List.mem_cons]
      constructor
      · rintro (h | h | h)
        · exact Or.inr ⟨h, hk⟩
        · exact Or.inl (Or.inl h)
        · exact Or.inl (Or.inr h)
      · rintro ((h | h) | ⟨h, _⟩)
        · exact Or.inr (Or.inl h)
        · exact Or.inr (Or.inr h)
        · exact Or.inl h
    · by_cases h2 : a.1 < k
      · have hne : k ≠ a.1 := fun h => absurd (h ▸ h2) (lt_irrefl _)
        simp only [h1, h2, if_false, if_true, List.mem_cons, ih hm', List.map_cons]
        constructor
        · rintro (h | h | ⟨h, hk⟩)
          · exact Or.inl (Or.inl h)
          · exact Or.inl (Or.inr h)
          · refine Or.inr ⟨h, ?_⟩
            rintro (h' | h')
            · exact hne h'
            · exact hk h'
        · rintro ((h | h) | ⟨h, hk⟩)
          · exact Or.inl h
          · exact Or.inr (Or.inl h)
          · exact Or.inr (Or.inr ⟨h, fun h' => hk (Or.inr h')⟩)
      · have hka : k = a.1 := le_antisymm (not_lt.mp h2) (not_lt.mp h1)
        simp only [h1, h2, if_false, List.mem_cons, List.map_cons]
        constructor
        · intro h; exact Or.inl h
        · rintro (h | ⟨_, hk⟩)
          · exact h
          · exact absurd (Or.inl hka) hk

theorem foldl_map_insert_sorted {ρ : Type} (cat_of uid_of title_of : ρ → String)
    (cat : String) (l : List ρ) (init : List (String × String))
    (hinit : (init.map Prod.fst).Pairwise (· < ·)) :
    ((l.foldl (fun output value =>
        if cat_of value = cat then std_map_insert (uid_of value) (title_of value) output
        else output) init).map Prod.fst).Pairwise (· < ·) := by
  induction l generalizing init with
  | nil => simpa using hinit
  | cons a l ih =>
    simp only [List.foldl_cons]
    by_cases hc : cat_of a = cat
    · simp only [hc, if_true]
      exact ih _ (std_map_insert_sorted _ _ _ hinit)
    · simp only [hc, if_false]
      exact ih _ hinit

/-- The entries of the map a loop of `elements_by_category` builds: for each key, the
title of the first element with that key and the requested category. -/
theorem mem_foldl_map_insert {ρ : Type} (cat_of uid_of title_of : ρ → String)
    (cat : String) (l : List ρ) (init : List (String × String))
    (hinit : (init.map Prod.fst).Pairwise (· < ·)) (key title : String) :
    (key, title) ∈ l.foldl (fun output value =>
        if cat_of value = cat then std_map_insert (uid_of value) (title_of value) output
        else output) init ↔
      (key, title) ∈ init ∨
      (key ∉ init.map Prod.fst ∧
        ∃ v, first_such (fun x => cat_of x = cat ∧ uid_of x = key) l v ∧
          title_of v = title) := by
  induction l generalizing init with
  | nil =>
    simp only [List.foldl_nil]
    constructor
    · intro h; exact Or.inl h
    · rintro (h | ⟨_, v, ⟨l1, l2, hl, _⟩, _⟩)
      · exact h
      · simp at hl
  | cons a l ih =>
    simp only [List.foldl_cons]
    by_cases hc : cat_of a = cat
    · simp only [hc, if_true]
      rw [ih _ (std_map_insert_sorted _ _ _ hinit), mem_std_map_insert _ _ _ hinit,
        mem_keys_std_map_insert]
      constructor
      · rintro ((h | ⟨h, hk⟩) | ⟨hk, v, hv, ht⟩)
        · exact Or.inl h
        · simp only [Prod.mk.injEq] at h
          refine Or.inr ⟨h.1 ▸ hk, a, ?_, h.2.symm⟩
          exact (first_such_cons _ a l a).mpr (Or.inl ⟨⟨hc, h.1.symm⟩, rfl⟩)
        · refine Or.inr ⟨fun h => hk (Or.inr h), v, ?_, ht⟩
          exact (first_such_cons _ a l v).mpr
            (Or.inr ⟨fun h => hk (Or.inl h.2.symm), hv⟩)
      · rintro (h | ⟨hk, v, hv, ht⟩)
        · exact Or.inl (Or.inl h)
        · rcases (first_such_cons _ a l v).mp hv with ⟨ha, rfl⟩ | ⟨ha, hv⟩
          · refine Or.inl (Or.inr ⟨?_, ?_⟩)
            · simp only [Prod.mk.injEq]
              exact ⟨ha.2.symm, ht.symm⟩
            · rw [ha.2]; exact hk
          · refine Or.inr ⟨?_, v, hv, ht⟩
            rintro (h | h)
            · exact ha ⟨hc, h.symm⟩
            · exact hk h
    · simp only [hc, if_false]
      rw [ih _ hinit]
      constructor
      · rintro (h | ⟨hk, v, hv, ht⟩)
        · exact Or.inl h
        · exact Or.inr ⟨hk, v, (first_such_cons _ a l v).mpr
            (Or.inr ⟨fun h => hc h.1, hv⟩), ht⟩
      · rintro (h | ⟨hk, v, hv, ht⟩)
        · exact Or.inl h
        · rcases (first_such_cons _ a l v).mp hv with ⟨ha, _⟩ | ⟨_, hv⟩
          · exact absurd ha.1 hc
          · exact Or.inr ⟨hk, v, hv, ht⟩

/-- The entries of the map of one vector, seen through the tag of a kind. -/
theorem entries_tagged {ρ : Type} (cat_of uid_of title_of : ρ → String) (tag : ρ → element)
    (hcat : ∀ x, (tag x).category = cat_of x) (huid : ∀ x, (tag x).uid = uid_of x)
    (htitle : ∀ x, (tag x).title = title_of x) (cat : String) (l : List ρ) :
    ((l.foldl (fun output value =>
        if cat_of value = cat then std_map_insert (uid_of value) (title_of value) output
        else output) []).map Prod.fst).Pairwise (· < ·) ∧
    ∀ key title, (key, title) ∈ l.foldl (fun output value =>
        if cat_of value = cat then std_map_insert (uid_of value) (title_of value) output
        else output) [] ↔
      ∃ e, first_such (fun x => x.category = cat ∧ x.uid = key) (l.map tag) e ∧
        e.title = title := by
  refine ⟨foldl_map_insert_sorted cat_of uid_of title_of cat l [] (by simp), ?_⟩
  intro key title
  rw [mem_foldl_map_insert cat_of uid_of title_of cat l [] (by simp)]
  have hmap := first_such_map (fun x => cat_of x = cat ∧ uid_of x = key)
    (fun x : element => x.category = cat ∧ x.uid = key) tag
    (fun x => by simp only [hcat, huid]) l
  constructor
  · rintro (h | ⟨_, v, hv, ht⟩)
    · cases h
    · exact ⟨tag v, (hmap (tag v)).mpr ⟨v, hv, rfl⟩, by rw [htitle]; exact ht⟩
  · rintro ⟨e, he, ht⟩
    obtain ⟨v, hv, rfl⟩ := (hmap e).mp he
    exact Or.inr ⟨by simp, v, hv, by rw [← htitle]; exact ht⟩

/-- The map `elements_by_category` returns for a kind: its keys in ascending order, and
as entries, for each uid, the title of the first record of the kind with that uid and the
requested category. -/
theorem elements_by_category_ok (c : container) (k : kind) (cat : String) :
    ∃ m, c.elements_by_category k.content_type cat = .ok m ∧
      (m.map Prod.fst).Pairwise (· < ·) ∧
      ∀ key title, (key, title) ∈ m ↔
        ∃ e, first_such (fun x => x.category = cat ∧ x.uid = key) (c.elements k) e ∧
          e.title = title := by
  cases k
  · exact ⟨_, rfl, entries_tagged login_type.category login_type.uid login_type.title
      element.login (fun _ => rfl) (fun _ => rfl) (fun _ => rfl) cat c.logins⟩
  · exact ⟨_, rfl, entries_tagged note_type.category note_type.uid note_type.title
      element.note (fun _ => rfl) (fun _ => rfl) (fun _ => rfl) cat c.notes⟩
  · exact ⟨_, rfl, entries_tagged file_type.category file_type.uid file_type.title
      element.file (fun _ => rfl) (fun _ => rfl) (fun _ => rfl) cat c.files⟩
  · exact ⟨_, rfl, entries_tagged contact_type.category contact_type.uid contact_type.title
      element.contact (fun _ => rfl) (fun _ => rfl) (fun _ => rfl) cat c.contacts⟩

/-- C11 (as amended). For every store, kind and category string, `elements_by_category`
returns a map whose keys are exactly the uids of the records of that kind whose category
is the given string, and each key maps to the display title (the member `title`, and
`title()` for a contact) of the first record of the vector with that uid and that
category; of the only such record when no other has the uid. -/
theorem elements_by_category_exact (c : container) (k : kind) (cat : String) :
    ∃ m, c.elements_by_category k.content_type cat = .ok m ∧
      (m.map Prod.fst).Pairwise (· < ·) ∧
      (∀ key, key ∈ m.map Prod.fst ↔ ∃ e ∈ c.elements k, e.category = cat ∧ e.uid = key) ∧
      (∀ key title, (key, title) ∈ m ↔
        ∃ e, first_such (fun x => x.category = cat ∧ x.uid = key) (c.elements k) e ∧
          e.title = title) ∧
      (∀ e ∈ c.elements k, e.category = cat →
        (∀ x ∈ c.elements k, x.category = cat → x.uid = e.uid → x = e) →
        (e.uid, e.title) ∈ m) := by
  obtain ⟨m, hm, hsorted, hentries⟩ := elements_by_category_ok c k cat
  obtain ⟨m2, hm2, hkeys⟩ := elements_by_category_keys c k cat
  rw [hm] at hm2
  cases hm2
  refine ⟨m, hm, hsorted, hkeys, hentries, ?_⟩
  intro e he hcat honly
  obtain ⟨title, ht⟩ : ∃ title, (e.uid, title) ∈ m := by
    have hk := (hkeys e.uid).mpr ⟨e, he, hcat, rfl⟩
    obtain ⟨p, hp, hpk⟩ := List.mem_map.mp hk
    exact ⟨p.2, by rw [← hpk]; exact hp⟩
  obtain ⟨x, ⟨l1, l2, hl, hx, _⟩, hxt⟩ := (hentries e.uid title).mp ht
  have hxe : x = e := honly x (by rw [hl]; simp) hx.1 hx.2
  rw [← hxe, hxt]
  rw [hxe]
  exact ht

/-- C11 (as stated) fails when two records of the kind and the category have the same
uid: of the two notes under the uid "n" the map lists the title of the first, so the key
of the second note does not map to the title of the second note. -/
theorem elements_by_category_first_wins :
    (container.mk [] [⟨"n", "a", "bank", "x"⟩, ⟨"n", "b", "bank", "y"⟩] [] []
      ).elements_by_category TYPE_NOTE "bank" = .ok [("n", "a")] := by
  simp [container.elements_by_category, TYPE_NOTE, TYPE_LOGIN, std_map_insert]

/-! ## Kinds, `clear`, the key and the title of a contact -/

/-- C12. `categories` and `elements_by_category` throw `invalid_lookup_error` exactly when
the kind is none of `TYPE_LOGIN`, `TYPE_NOTE`, `TYPE_FILE`, `TYPE_CONTACT`; for each of
the four they return a value, whatever the store holds. -/
theorem invalid_kind_iff (c : container) (t : content_type) (cat : String) :
    (c.categories t = .error .invalid_lookup_error ↔
      t ≠ TYPE_LOGIN ∧ t ≠ TYPE_NOTE ∧ t ≠ TYPE_FILE ∧ t ≠ TYPE_CONTACT) ∧
    (c.elements_by_category t cat = .error .invalid_lookup_error ↔
      t ≠ TYPE_LOGIN ∧ t ≠ TYPE_NOTE ∧ t ≠ TYPE_FILE ∧ t ≠ TYPE_CONTACT) ∧
    ((t = TYPE_LOGIN ∨ t = TYPE_NOTE ∨ t = TYPE_FILE ∨ t = TYPE_CONTACT) →
      (∃ s, c.categories t = .ok s) ∧ ∃ m, c.elements_by_category t cat = .ok m) := by
  unfold container.categories container.elements_by_category
  by_cases h1 : t = TYPE_LOGIN
  · subst h1
    simp [TYPE_LOGIN, TYPE_NOTE, TYPE_FILE, TYPE_CONTACT]
  · by_cases h2 : t = TYPE_NOTE
    · subst h2
      simp [TYPE_LOGIN, TYPE_NOTE, TYPE_FILE, TYPE_CONTACT]
    · by_cases h3 : t = TYPE_FILE
      · subst h3
        simp [TYPE_LOGIN, TYPE_NOTE, TYPE_FILE, TYPE_CONTACT]
      · by_cases h4 : t = TYPE_CONTACT
        · subst h4
          simp [TYPE_LOGIN, TYPE_NOTE, TYPE_FILE, TYPE_CONTACT]
        · simp [h1, h2, h3, h4]

/-- C13. For every store, `clear` leaves the four vectors empty, which is the state of a
freshly constructed store, and a second `clear` changes nothing. -/
theorem clear_empties (c : container) :
    c.clear = container.init ∧
    (c.clear.logins = [] ∧ c.clear.notes = [] ∧ c.clear.files = [] ∧
      c.clear.contacts = []) ∧
    c.clear.clear = c.clear :=
  ⟨rfl, ⟨rfl, rfl, rfl, rfl⟩, rfl⟩

/-- C15. For every password, `create_key` returns 32 bytes: byte `i` is byte `i` of the
password for `i` below the length of the password, and zero from there on; a password of
32 bytes or more gives its first 32 bytes. -/
theorem create_key_bytes (password : Bytes) :
    (aes.create_key password).length = 32 ∧
    (∀ i, i < 32 → i < password.length →
      (aes.create_key password).getD i 0 = password.getD i 0) ∧
    (∀ i, i < 32 → password.length ≤ i → (aes.create_key password).getD i 0 = 0) ∧
    (32 ≤ password.length → aes.create_key password = password.take 32) := by
  refine ⟨?_, ?_, ?_, ?_⟩
  · simp only [aes.create_key, List.length_append, List.length_take, List.length_replicate]
    omega
  · intro i hi hlt
    simp only [aes.create_key, List.getD_eq_getElem?_getD]
    rw [List.getElem?_append_left (by simp; omega), List.getElem?_take_of_lt hi]
  · intro i hi hle
    simp only [aes.create_key, List.getD_eq_getElem?_getD]
    rw [List.getElem?_append_right (by simp; omega)]
    rw [List.getElem?_replicate]
    split <;> simp
  · intro h
    simp [aes.create_key, Nat.sub_eq_zero_of_le h]

/-- C20. For every contact, `title()` is the last name, a comma and a space, and the first
name; it is "Doe, Jane" for Jane Doe. -/
theorem contact_title (v : contact_type) :
    v.title = v.last_name ++ ", " ++ v.first_name ∧
    (contact_type.mk "" "" "Jane" "Doe" "" "" "" "" "" "" "").title = "Doe, Jane" :=
  ⟨rfl, by decide⟩

/-! ## The mapped path is not persisted -/

/-- A run of assignments leaves alone what none of its setters touches. -/
theorem assign_fields_frame {ρ α : Type} (proj : ρ → α) (tree : ptree)
    (fs : List (String × (ρ → String → ρ)))
    (hfs : ∀ f ∈ fs, ∀ r v, proj (f.2 r v) = proj r) (r : ρ) :
    proj (assign_fields tree fs r).1 = proj r := by
  induction fs generalizing r with
  | nil => rfl
  | cons f fs ih =>
    obtain ⟨key, set⟩ := f
    unfold assign_fields
    split
    · next v _ =>
      rw [ih (fun g hg => hfs g (List.mem_cons_of_mem _ hg))]
      exact hfs (key, set) (List.mem_cons_self _ _) r v
    · rfl

/-- The member `file_type::load` does not assign `mapped_file`. -/
theorem file_load_mapped_file (r : file_type) (tree : ptree) :
    (file_type.load r tree).1.mapped_file = r.mapped_file := by
  unfold file_type.load
  apply assign_fields_frame file_type.mapped_file
  intro f hf r v
  simp only [List.mem_cons, List.mem_singleton, List.not_mem_nil, or_false] at hf
  rcases hf with rfl | rfl | rfl | rfl <;> rfl

/-- After `load`, whether it returned or threw, no file of the store is mapped. -/
theorem load_files_unmapped (X : Extern) (c : container) (password input : Bytes) :
    ∀ f ∈ (c.load X password input).1.files, f.mapped_file = "" := by
  rcases load_outcome X c password input with ⟨_, hl⟩ | ⟨tree, _, hst, _⟩
  · rw [hl]
    intro f hf
    cases hf
  · obtain ⟨n1, n2, n3, n4, hp⟩ := load_tree_prefix X container.init tree
    rw [hst, hp]
    intro f hf
    simp only [container.init, List.nil_append] at hf
    have hf2 := List.mem_of_mem_take hf
    unfold attempted at hf2
    split at hf2
    · cases hf2
    · obtain ⟨value, _, rfl⟩ := List.mem_map.mp hf2
      rw [file_load_mapped_file]
      rfl

/-- C19. The mapped path of a file is never persisted: the tree `file_type::save` builds
has the keys uid, title, category and content and no other, and is the same whatever
`mapped_file` is; and every file of the store after a `load` that succeeded (and after
one that threw as well) has an empty `mapped_file`. -/
theorem mapped_file_not_persisted (f : file_type) (path : String) (X : Extern)
    (c : container) (password input : Bytes) :
    f.save.children.map Prod.fst = ["uid", "title", "category", "content"] ∧
    ({ f with mapped_file := path } : file_type).save = f.save ∧
    ((c.load X password input).2 = .ok () →
      ∀ g ∈ (c.load X password input).1.files, g.mapped_file = "") ∧
    (∀ g ∈ (c.load X password input).1.files, g.mapped_file = "") := by
  refine ⟨?_, rfl, fun _ => load_files_unmapped X c password input,
    load_files_unmapped X c password input⟩
  simp [file_type.save, ptree.put, ptree.init, ptree.children, put_first]

/-! ## The cipher on short messages -/

/-- C14 (as amended). For every password, when the block functions of the cipher invert
each other: the empty message is encrypted to the empty message and back; a message
longer than one block of 16 bytes is encrypted to a message of the same length that
decrypts to it; for a message of 1 to 16 bytes `aes::encrypt` throws
`CryptoPP::InvalidArgument`, the mode having no block to steal from. -/
theorem encrypt_roundtrip (X : Extern) (password p : Bytes)
    (haes : ∀ key block, block.length = 16 →
      (X.aes_encrypt_block key block).length = 16 ∧
      X.aes_decrypt_block key (X.aes_encrypt_block key block) = block) :
    (p = [] → aes.encrypt X password p = .ok [] ∧ aes.decrypt X password [] = []) ∧
    (16 < p.length →
      ∃ out, aes.encrypt X password p = .ok out ∧ out.length = p.length ∧
        aes.decrypt X password out = p) ∧
    (0 < p.length → p.length ≤ 16 → aes.encrypt X password p = .error .invalid_argument) := by
  refine ⟨?_, aes_decrypt_encrypt X password p haes, ?_⟩
  · rintro rfl
    exact ⟨rfl, rfl⟩
  · intro hpos hle
    unfold aes.encrypt
    obtain ⟨n, hn⟩ : ∃ n, p.length = n + 1 := ⟨p.length - 1, by omega⟩
    rw [hn]
    unfold aes.cbc_cts_encrypt
    simp only [aes.BLOCKSIZE]
    rw [if_neg (by omega), if_pos (by omega)]

/-- A message of twenty bytes under the identity block functions: `encrypt_roundtrip`
applies. -/
theorem encrypt_roundtrip_witness :
    ∃ out, aes.encrypt (test_double [] none) [112, 119] sample_text = .ok out ∧
      out.length = sample_text.length ∧
      aes.decrypt (test_double [] none) [112, 119] out = sample_text :=
  (encrypt_roundtrip (test_double [] none) [112, 119] sample_text
    (fun _ _ h => ⟨h, rfl⟩)).2.1 (by decide)

/-- C14 (as stated) fails for a message shorter than one block: the two bytes "hi" are
not encrypted, `aes::encrypt` throws `CryptoPP::InvalidArgument`. -/
theorem encrypt_short_message :
    aes.encrypt (test_double [] none) [112, 119] [104, 105] = .error .invalid_argument := by
  decide

/-! ## Base64 -/

/-- Every six bit value is read back from its character, which is neither white space nor
the padding character. -/
theorem base64_table :
    ∀ v, v < 64 → base64.value (base64.to_char v) = some v ∧
      base64.is_space (base64.to_char v) = false ∧ base64.to_char v ≠ '=' := by
  decide

theorem read_sextet_to_char (v : Nat) (hv : v < 64) (rest : List Char) :
    base64.read_sextet (base64.to_char v :: rest) = .ok (v, rest) := by
  obtain ⟨h1, h2, _⟩ := base64_table v hv
  simp [base64.read_sextet, h1, h2]

/-- The bytes of the range do not depend on the value read last when none of its bits is
left. -/
theorem decode_range_buf (fuel buf : Nat) (input : List Char) :
    base64.decode_range fuel buf 0 input = base64.decode_range fuel 0 0 input := by
  cases fuel with
  | zero => rfl
  | succ n => simp [base64.decode_range]

/-- Four characters of the table make three bytes. -/
theorem decode_range_group (fuel buf v0 v1 v2 v3 : Nat) (h0 : v0 < 64) (h1 : v1 < 64)
    (h2 : v2 < 64) (h3 : v3 < 64) (rest : List Char) :
    base64.decode_range (fuel + 3) buf 0
        (base64.to_char v0 :: base64.to_char v1 :: base64.to_char v2 ::
          base64.to_char v3 :: rest) =
      match base64.decode_range fuel 0 0 rest with
      | .error e => .error e
      | .ok out =>
        .ok ((v0 * 4 + v1 / 16) :: (v1 % 16 * 16 + v2 / 4) :: (v2 % 4 * 64 + v3) :: out) := by
  have e0 : v0 % 64 * 4 + v1 / 16 % 4 = v0 * 4 + v1 / 16 := by omega
  have e1 : v1 % 16 * 16 + v2 / 4 % 16 = v1 % 16 * 16 + v2 / 4 := by omega
  have e2 : v2 % 4 * 64 + v3 % 64 = v2 % 4 * 64 + v3 := by omega
  rw [base64.decode_range]
  simp only [List.cons_ne_nil, if_false, if_true, read_sextet_to_char _ h0,
    read_sextet_to_char _ h1]
  rw [base64.decode_range]
  simp only [List.cons_ne_nil, if_false, read_sextet_to_char _ h2, Nat.reduceEqDiff,
    Nat.reduceSub, Nat.reducePow]
  rw [base64.decode_range]
  simp only [List.cons_ne_nil, if_false, read_sextet_to_char _ h3, Nat.reduceEqDiff,
    Nat.reduceSub, Nat.reducePow, Nat.pow_zero, Nat.div_one]
  rw [decode_range_buf]
  cases base64.decode_range fuel 0 0 rest with
  | error e => rfl
  | ok out => simp only [e0, e1, e2]
theorem decode_range_nil (fuel buf rem : Nat) :
    base64.decode_range fuel buf rem [] = .ok [] := by
  cases fuel <;> simp [base64.decode_range]

/-- The characters of the encoding, the padding replaced by `A`, decode to the bytes
encoded followed by a zero byte for each padding character. -/
theorem decode_range_encode_range : ∀ (b : Bytes) (fuel : Nat), (∀ x ∈ b, x < 256) →
    (base64.encode_range b).length + (3 - b.length % 3) % 3 ≤ fuel →
    base64.decode_range fuel 0 0
        (base64.encode_range b ++ List.replicate ((3 - b.length % 3) % 3) 'A') =
      .ok (b ++ List.replicate ((3 - b.length % 3) % 3) 0)
  | [], fuel, _, _ => by
    simp [base64.encode_range, decode_range_nil]
  | [a], fuel, hb, hf => by
    have ha : a < 256 := hb a (by simp)
    have hA : ('A' : Char) = base64.to_char 0 := by decide
    obtain ⟨f, rfl⟩ : ∃ f, fuel = f + 3 := ⟨fuel - 3, by
      simp [base64.encode_range] at hf; omega⟩
    simp only [base64.encode_range, List.length_singleton, Nat.reduceMod, Nat.reduceSub,
      List.replicate, List.cons_append, List.nil_append, hA]
    rw [decode_range_group f 0 _ _ 0 0 (by omega) (by omega) (by omega) (by omega),
      decode_range_nil]
    simp only [Except.ok.injEq, List.cons.injEq, and_true]
    omega
  | [a, b], fuel, hb, hf => by
    have ha : a < 256 := hb a (by simp)
    have hb2 : b < 256 := hb b (by simp)
    have hA : ('A' : Char) = base64.to_char 0 := by decide
    obtain ⟨f, rfl⟩ : ∃ f, fuel = f + 3 := ⟨fuel - 3, by
      simp [base64.encode_range] at hf; omega⟩
    simp only [base64.encode_range, List.length_cons, List.length_nil, Nat.reduceAdd,
      Nat.reduceMod, Nat.reduceSub, List.replicate, List.cons_append, List.nil_append, hA]
    rw [decode_range_group f 0 _ _ _ 0 (by omega) (by omega) (by omega) (by omega),
      decode_range_nil]
    simp only [Except.ok.injEq, List.cons.injEq, and_true]
    omega
  | a :: b :: c :: rest, fuel, hb, hf => by
    have ha : a < 256 := hb a (by simp)
    have hb2 : b < 256 := hb b (by simp)
    have hc : c < 256 := hb c (by simp)
    have hpad : (3 - (a :: b :: c :: rest).length % 3) % 3 = (3 - rest.length % 3) % 3 := by
      simp only [List.length_cons]
      omega
    obtain ⟨f, rfl⟩ : ∃ f, fuel = f + 3 := ⟨fuel - 3, by
      simp [base64.encode_range] at hf; omega⟩
    have ih := decode_range_encode_range rest f
      (fun x hx => hb x (by simp [hx]))
      (by
        simp only [List.length_cons] at hpad
        simp [base64.encode_range] at hf
        rw [hpad] at hf
        omega)
    rw [hpad]
    simp only [base64.encode_range, List.cons_append]
    rw [decode_range_group f 0 _ _ _ _ (by omega) (by omega) (by omega) (by omega), ih]
    simp only [Except.ok.injEq, List.cons_append, List.cons.injEq, and_true]
    omega

/-- The encoding has no padding character before its padding. -/
theorem encode_range_no_padding : ∀ (b : Bytes), ∀ ch ∈ base64.encode_range b, ch ≠ '='
  | [], ch, h => by simp [base64.encode_range] at h
  | [a], ch, h => by
    simp only [base64.encode_range, List.mem_cons, List.mem_singleton, List.not_mem_nil,
      or_false] at h
    rcases h with rfl | rfl
    · exact (base64_table _ (by omega)).2.2
    · exact (base64_table _ (by omega)).2.2
  | [a, b], ch, h => by
    simp only [base64.encode_range, List.mem_cons, List.mem_singleton, List.not_mem_nil,
      or_false] at h
    rcases h with rfl | rfl | rfl
    · exact (base64_table _ (by omega)).2.2
    · exact (base64_table _ (by omega)).2.2
    · exact (base64_table _ (by omega)).2.2
  | a :: b :: c :: rest, ch, h => by
    simp only [base64.encode_range, List.mem_cons] at h
    rcases h with rfl | rfl | rfl | rfl | h
    · exact (base64_table _ (by omega)).2.2
    · exact (base64_table _ (by omega)).2.2
    · exact (base64_table _ (by omega)).2.2
    · exact (base64_table _ (by omega)).2.2
    · exact encode_range_no_padding rest ch h

/-- Decoding undoes encoding, for every string of bytes. -/
theorem decode_encode (b : Bytes) (hb : ∀ x ∈ b, x < 256) :
    base64.decode (base64.encode b) = .ok b := by
  have hno := encode_range_no_padding b
  have hcount : (base64.encode_range b).count '=' = 0 := by
    rw [List.count_eq_zero]
    intro h
    exact hno _ h rfl
  have hmap : (base64.encode_range b).map (fun c => if c = '=' then 'A' else c) =
      base64.encode_range b := by
    conv_rhs => rw [← List.map_id (base64.encode_range b)]
    apply List.map_congr_left
    intro ch hch
    simp [hno ch hch]
  have hpad : base64.padding (base64.encode b) = (3 - b.length % 3) % 3 := by
    simp [base64.padding, base64.encode, List.count_append, hcount, List.count_replicate]
  have hdec : base64.decoded (base64.encode b) =
      .ok (b ++ List.replicate ((3 - b.length % 3) % 3) 0) := by
    unfold base64.decoded
    have hdata : (base64.encode b).data =
        base64.encode_range b ++ List.replicate ((3 - b.length % 3) % 3) '=' := rfl
    rw [hdata, List.map_append, hmap]
    have hrep : (List.replicate ((3 - b.length % 3) % 3) '=').map
        (fun c => if c = '=' then 'A' else c) =
        List.replicate ((3 - b.length % 3) % 3) 'A' := by
      simp
    rw [hrep]
    exact decode_range_encode_range b _ hb (by simp)
  unfold base64.decode
  rw [hdec, hpad]
  simp
/-! ## Files on disk -/

theorem read_put (d : disk) (path : String) (content : Bytes) :
    (d.put path content).read path = some content := by
  simp [disk.read, disk.put]

theorem read_remove (d : disk) (path : String) : (d.remove path).read path = none := by
  have h : (d.files.filter (fun entry => entry.1 ≠ path)).find?
      (fun entry => entry.1 = path) = none := by
    rw [List.find?_eq_none]
    intro entry hentry
    have := (List.mem_filter.mp hentry).2
    simpa using this
  simp only [disk.read, disk.remove]
  rw [h]

/-- The path drawn for a temporary file is never the empty string. -/
theorem unique_path_ne_empty (draw : List Nat) : auxiliary.unique_path draw ≠ "" := by
  intro h
  have h2 := congrArg String.data h
  simp [auxiliary.unique_path, auxiliary.path_chars] at h2

/-- The overwriting rounds change no list of failing paths. -/
theorem overwrite_frame (filename : String) (file_length : Nat) (noise : Nat → Nat → Nat)
    (iterations round : Nat) (d : disk) :
    (auxiliary.overwrite filename file_length noise iterations round d).no_create =
        d.no_create ∧
    (auxiliary.overwrite filename file_length noise iterations round d).no_write =
        d.no_write ∧
    (auxiliary.overwrite filename file_length noise iterations round d).no_remove =
        d.no_remove := by
  induction iterations generalizing round d with
  | zero => exact ⟨rfl, rfl, rfl⟩
  | succ n ih =>
    unfold auxiliary.overwrite
    obtain ⟨h1, h2, h3⟩ := ih (round + 1)
      (if filename ∈ d.no_write then d
        else d.put filename (auxiliary.random_data file_length (noise round)))
    rw [h1, h2, h3]
    split <;> exact ⟨rfl, rfl, rfl⟩

/-- `secure_erase` changes no list of failing paths, and after it returned the file is
gone. -/
theorem secure_erase_frame (d : disk) (filename : String) (iterations : Nat)
    (noise : Nat → Nat → Nat) :
    (auxiliary.secure_erase d filename iterations noise).1.no_create = d.no_create ∧
    (auxiliary.secure_erase d filename iterations noise).1.no_write = d.no_write ∧
    ((auxiliary.secure_erase d filename iterations noise).2 = .ok () →
      (auxiliary.secure_erase d filename iterations noise).1.read filename = none) := by
  unfold auxiliary.secure_erase
  cases d.read filename with
  | none =>
    refine ⟨rfl, rfl, ?_⟩
    intro h
    cases h
  | some content =>
    obtain ⟨h1, h2, _⟩ := overwrite_frame filename content.length noise iterations 0 d
    dsimp only
    split
    · refine ⟨h1, h2, ?_⟩
      intro h
      cases h
    · exact ⟨h1, h2, fun _ => read_remove _ _⟩

/-- What `map` does to a file that is not mapped, by the outcome of the decoding and of
the creation of the temporary file. -/
theorem map_unmapped (f : file_type) (d : disk) (draw : List Nat)
    (hf : f.mapped_file = "") :
    (∃ e, (f.map d draw).2.2 = .error e) ∨
    (∃ content, base64.decode f.content = .ok content ∧
      auxiliary.unique_path draw ∉ d.no_create ∧
      f.map d draw =
        ({ f with mapped_file := auxiliary.unique_path draw },
          (if auxiliary.unique_path draw ∈ d.no_write
            then d.put (auxiliary.unique_path draw) []
            else (d.put (auxiliary.unique_path draw) []).put (auxiliary.unique_path draw)
              content),
          .ok (auxiliary.unique_path draw))) := by
  unfold file_type.map
  rw [if_pos hf]
  cases hdec : base64.decode f.content with
  | error e => exact Or.inl ⟨e, rfl⟩
  | ok content =>
    by_cases hc : auxiliary.unique_path draw ∈ d.no_create
    · left
      simp [auxiliary.map_file, hc]
    · right
      refine ⟨content, rfl, hc, ?_⟩
      simp only [auxiliary.map_file, hc, if_false, disk.put]

/-- The temporary file is there after `map` created it, with the decoded bytes when the
write did not fail. -/
theorem read_mapped (d : disk) (path : String) (content : Bytes) :
    (∃ bytes, (if path ∈ d.no_write then d.put path []
      else (d.put path []).put path content).read path = some bytes) ∧
    (path ∉ d.no_write →
      (if path ∈ d.no_write then d.put path []
        else (d.put path []).put path content).read path = some content) := by
  by_cases hw : path ∈ d.no_write
  · simp only [hw, if_true, not_true_eq_false, false_implies, and_true]
    exact ⟨[], read_put _ _ _⟩
  · simp only [hw, if_false, not_false_eq_true, true_implies]
    exact ⟨⟨content, read_put _ _ _⟩, read_put _ _ _⟩

/-- C17. `map` on a mapped file returns the path it is mapped at and changes neither the
record nor the file system; on a file that is not mapped, a `map` that returns sets
`mapped_file` to the path it returns, which is the path drawn for the temporary file and
names a file that exists then (with the decoded content when the write did not fail),
and leaves the other members alone; a second `map` returns the same path and changes
nothing. -/
theorem map_idempotent (f : file_type) (d : disk) (draw : List Nat) :
    (f.mapped_file ≠ "" → f.map d draw = (f, d, .ok f.mapped_file)) ∧
    (f.mapped_file = "" → ∀ path, (f.map d draw).2.2 = .ok path →
      path = auxiliary.unique_path draw ∧ path ≠ "" ∧
      (f.map d draw).1 = { f with mapped_file := path } ∧
      (∃ bytes, (f.map d draw).2.1.read path = some bytes) ∧
      (∀ content, base64.decode f.content = .ok content → path ∉ d.no_write →
        (f.map d draw).2.1.read path = some content) ∧
      ∀ draw2, (f.map d draw).1.map (f.map d draw).2.1 draw2 =
        ((f.map d draw).1, (f.map d draw).2.1, .ok path)) := by
  constructor
  · intro h
    simp [file_type.map, h]
  · intro hf path hpath
    rcases map_unmapped f d draw hf with ⟨e, he⟩ | ⟨content, hdec, _, hmap⟩
    · rw [he] at hpath
      cases hpath
    · rw [hmap] at hpath ⊢
      have hp : auxiliary.unique_path draw = path := by
        simpa using hpath
      subst hp
      obtain ⟨hex, hcontent⟩ := read_mapped d (auxiliary.unique_path draw) content
      refine ⟨rfl, unique_path_ne_empty draw, rfl, hex, ?_, ?_⟩
      · intro content2 hdec2 hw
        rw [hdec] at hdec2
        cases hdec2
        exact hcontent hw
      · intro draw2
        simp [file_type.map, unique_path_ne_empty draw]

/-- C18. `unmap` on a file that is not mapped erases nothing and changes neither the
record nor the file system; on a mapped file it does to the file system what
`secure_erase` does for the mapped path and the given number of iterations, and has its
outcome; when the erasure returned, `mapped_file` is empty, the other members are as they
were and the file is gone; when it threw, the record is as it was. -/
theorem unmap_erases (f : file_type) (d : disk) (iterations : Nat)
    (noise : Nat → Nat → Nat) :
    (f.mapped_file = "" → f.unmap d iterations noise = (f, d, .ok ())) ∧
    (f.mapped_file ≠ "" →
      (f.unmap d iterations noise).2.1 =
        (auxiliary.secure_erase d f.mapped_file iterations noise).1 ∧
      (f.unmap d iterations noise).2.2 =
        (auxiliary.secure_erase d f.mapped_file iterations noise).2 ∧
      ((auxiliary.secure_erase d f.mapped_file iterations noise).2 = .ok () →
        (f.unmap d iterations noise).1 = { f with mapped_file := "" } ∧
        (f.unmap d iterations noise).2.1.read f.mapped_file = none) ∧
      ((auxiliary.secure_erase d f.mapped_file iterations noise).2 ≠ .ok () →
        (f.unmap d iterations noise).1 = f)) := by
  constructor
  · intro h
    simp [file_type.unmap, h]
  · intro h
    have hgone := (secure_erase_frame d f.mapped_file iterations noise).2.2
    unfold file_type.unmap
    rw [if_pos h]
    rcases hse : auxiliary.secure_erase d f.mapped_file iterations noise with ⟨d1, r⟩
    rw [hse] at hgone
    cases r with
    | ok u => exact ⟨rfl, rfl, fun _ => ⟨rfl, hgone rfl⟩, fun hne => absurd rfl hne⟩
    | error e => exact ⟨rfl, rfl, fun hok => (by cases hok), fun _ => rfl⟩

/-- What `upload` does when it returns: the record has the encoding of the bytes of the
file as content and is otherwise unchanged, and no list of failing paths changed. -/
theorem upload_ok (f : file_type) (d : disk) (filename : String) (flag : Bool)
    (iterations : Nat) (noise : Nat → Nat → Nat) (b : Bytes)
    (hread : d.read filename = some b) :
    (f.upload d filename flag iterations noise).1 = { f with content := base64.encode b } ∧
    (f.upload d filename flag iterations noise).2.1.no_create = d.no_create ∧
    (f.upload d filename flag iterations noise).2.1.no_write = d.no_write := by
  obtain ⟨h1, h2, _⟩ := secure_erase_frame d filename iterations noise
  unfold file_type.upload
  rw [hread]
  cases flag
  · exact ⟨rfl, rfl, rfl⟩
  · exact ⟨rfl, h1, h2⟩

/-- C16 (as amended). For every string of bytes, of any length, `base64::decode` of its
`base64::encode` is that string; hence a file record that is not mapped and whose content
was set by `upload` from a file with bytes `b` gets, from a `map` whose temporary file can
be created and written, a temporary file that holds exactly `b`. -/
theorem upload_map_roundtrip (b : Bytes) (hb : ∀ x ∈ b, x < 256) (f : file_type) (d : disk)
    (filename : String) (flag : Bool) (iterations : Nat) (noise : Nat → Nat → Nat)
    (draw : List Nat) (hread : d.read filename = some b)
    (hunmapped : f.mapped_file = "")
    (hcreate : auxiliary.unique_path draw ∉ d.no_create)
    (hwrite : auxiliary.unique_path draw ∉ d.no_write) :
    base64.decode (base64.encode b) = .ok b ∧
    (f.upload d filename flag iterations noise).1.content = base64.encode b ∧
    ((f.upload d filename flag iterations noise).1.map
      (f.upload d filename flag iterations noise).2.1 draw).2.2 =
        .ok (auxiliary.unique_path draw) ∧
    ((f.upload d filename flag iterations noise).1.map
      (f.upload d filename flag iterations noise).2.1 draw).2.1.read
        (auxiliary.unique_path draw) = some b := by
  obtain ⟨hrec, hnc, hnw⟩ := upload_ok f d filename flag iterations noise b hread
  have hdec := decode_encode b hb
  have hcontent : (f.upload d filename flag iterations noise).1.content = base64.encode b := by
    rw [hrec]
  have hun : (f.upload d filename flag iterations noise).1.mapped_file = "" := by
    rw [hrec]; exact hunmapped
  refine ⟨hdec, hcontent, ?_⟩
  rcases map_unmapped (f.upload d filename flag iterations noise).1
      (f.upload d filename flag iterations noise).2.1 draw hun with
    ⟨e, he⟩ | ⟨content, hc, _, hmap⟩
  · exfalso
    unfold file_type.map at he
    rw [if_pos hun, hcontent, hdec] at he
    simp [auxiliary.map_file, hnc, hcreate] at he
  · rw [hcontent, hdec] at hc
    cases hc
    rw [hmap]
    refine ⟨rfl, ?_⟩
    exact (read_mapped _ _ _).2 (by rw [hnw]; exact hwrite)

/-- The two bytes "hi" uploaded into a fresh record and mapped: `upload_map_roundtrip`
applies, and the temporary file "a1b2-c3d4-e5f6-0789" holds them. -/
theorem upload_map_roundtrip_witness :
    ((file_type.init.upload sample_disk "in.bin" false 10 (fun _ _ => 0)).1.map
      (file_type.init.upload sample_disk "in.bin" false 10 (fun _ _ => 0)).2.1
      sample_draw).2.1.read (auxiliary.unique_path sample_draw) = some [104, 105] :=
  (upload_map_roundtrip [104, 105] (by decide) file_type.init sample_disk "in.bin" false 10
    (fun _ _ => 0) sample_draw (by decide) (by decide) (by decide) (by decide)).2.2.2

/-- C16 (as stated) fails for a record that is still mapped: the record is mapped at
"3f9a-0c1e-77b2-5d40", the bytes "hi" are uploaded into it, and `map` returns the old
path, writes no file and leaves under that path the three bytes that were there. -/
theorem upload_map_stale :
    (file_type.mk "f1" "scan" "" "" "3f9a-0c1e-77b2-5d40").upload sample_disk "in.bin" false
        10 (fun _ _ => 0) =
      (⟨"f1", "scan", "", "aGk=", "3f9a-0c1e-77b2-5d40"⟩, sample_disk, .ok ()) ∧
    (file_type.mk "f1" "scan" "" "aGk=" "3f9a-0c1e-77b2-5d40").map sample_disk sample_draw =
      (⟨"f1", "scan", "", "aGk=", "3f9a-0c1e-77b2-5d40"⟩, sample_disk,
        .ok "3f9a-0c1e-77b2-5d40") ∧
    sample_disk.read "3f9a-0c1e-77b2-5d40" = some [1, 2, 3] ∧
    sample_disk.read (auxiliary.unique_path sample_draw) = none := by
  decide

/-! ## Appending, reading back, replacing -/

/-- The record with its uid overwritten keeps its kind and every other member. -/
theorem with_uid_frame (e : element) (s : String) :
    (e.with_uid s).uid = s ∧ (e.with_uid s).kind = e.kind ∧ (e.with_uid s).with_uid e.uid = e := by
  cases e <;> exact ⟨rfl, rfl, rfl⟩

/-- C25. For every store, kind and record with an empty uid, the setter appends: the
vector of the kind is the vector it was, followed by one element that is the record with
the returned identifier as uid and every other member as given; its length grows by one,
and the vectors of the other three kinds are as they were. -/
theorem upsert_appends (c : container) (e : element) (u : uuid) (he : e.uid = "") :
    (c.upsert e u).2 = .ok (uuid_to_string u) ∧
    (c.upsert e u).1.elements e.kind =
      c.elements e.kind ++ [e.with_uid (uuid_to_string u)] ∧
    ((c.upsert e u).1.elements e.kind).length = (c.elements e.kind).length + 1 ∧
    (e.with_uid (uuid_to_string u)).uid = uuid_to_string u ∧
    (e.with_uid (uuid_to_string u)).with_uid "" = e ∧
    ∀ k, k ≠ e.kind → (c.upsert e u).1.elements k = c.elements k := by
  obtain ⟨hres, hel, hother⟩ := upsert_new_state c e u he
  obtain ⟨huid, _, hback⟩ := with_uid_frame e (uuid_to_string u)
  rw [he] at hback
  exact ⟨hres, hel, by rw [hel]; simp, huid, hback, hother⟩

/-- A contact without uid stored into a store with one contact: `upsert_appends`
applies. -/
theorem upsert_appends_witness :
    ((container.mk [] [] [] [⟨"a1", "", "Jane", "Doe", "", "", "", "", "", "", ""⟩]).upsert
      (.contact ⟨"", "", "John", "Doe", "", "", "", "", "", "", ""⟩) sample_uuid).1.elements
        .contact =
      [.contact ⟨"a1", "", "Jane", "Doe", "", "", "", "", "", "", ""⟩,
        .contact ⟨"12345678-9abc-4def-8123-456789abcdef", "", "John", "Doe", "", "", "", "",
          "", "", ""⟩] :=
  (upsert_appends ⟨[], [], [], [⟨"a1", "", "Jane", "Doe", "", "", "", "", "", "", ""⟩]⟩
    (.contact ⟨"", "", "John", "Doe", "", "", "", "", "", "", ""⟩) sample_uuid rfl).2.1

/-- The lookup returns the element before which no element has the uid. -/
theorem lookup_first {ρ : Type} (uid_of : ρ → String) (tag : ρ → element)
    (htag : ∀ x, (tag x).uid = uid_of x) (uid : String) (e : element) (l2 : List element) :
    ∀ (l1 : List element) (items : List ρ), items.map tag = l1 ++ e :: l2 →
      (∀ y ∈ l1, y.uid ≠ uid) → e.uid = uid → (lookup uid_of items uid).map tag = .ok e
  | [], [], h, _, _ => by simp at h
  | [], a :: rest, h, _, he => by
    simp only [List.map_cons, List.nil_append, List.cons.injEq] at h
    have ha : uid_of a = uid := by rw [← htag, h.1]; exact he
    simp only [lookup, ha, if_true]
    rw [← h.1]
    rfl
  | y :: l1, [], h, _, _ => by simp at h
  | y :: l1, a :: rest, h, hno, he => by
    simp only [List.map_cons, List.cons_append, List.cons.injEq] at h
    have ha : uid_of a ≠ uid := by
      rw [← htag, h.1]
      exact hno y (List.mem_cons_self _ _)
    simp only [lookup, ha, if_false]
    exact lookup_first uid_of tag htag uid e l2 l1 rest h.2
      (fun z hz => hno z (List.mem_cons_of_mem _ hz)) he

/-- The lookup of a kind returns the element of the vector before which no element has
the uid. -/
theorem get_first (c : container) (k : kind) (uid : String) (l1 l2 : List element)
    (e : element) (hl : c.elements k = l1 ++ e :: l2) (hno : ∀ y ∈ l1, y.uid ≠ uid)
    (he : e.uid = uid) : c.get k uid = .ok e := by
  cases k
  · exact lookup_first login_type.uid element.login (fun _ => rfl) uid e l2 l1 c.logins hl
      hno he
  · exact lookup_first note_type.uid element.note (fun _ => rfl) uid e l2 l1 c.notes hl
      hno he
  · exact lookup_first file_type.uid element.file (fun _ => rfl) uid e l2 l1 c.files hl
      hno he
  · exact lookup_first contact_type.uid element.contact (fun _ => rfl) uid e l2 l1
      c.contacts hl hno he

/-- C26. For every store, kind and record, when the setter succeeds and returns `uid`:
in the update case (the record has a non-empty uid) the lookup of `uid` returns the
record, also when several records have that uid, both loops stopping at the first; in
the insert case the lookup of `uid` returns the record with `uid` as its uid whenever no
record of the vector had that uid before. -/
theorem get_after_upsert (c : container) (e : element) (u : uuid) (uid : String)
    (hok : (c.upsert e u).2 = .ok uid) :
    (e.uid ≠ "" → uid = e.uid ∧ (c.upsert e u).1.get e.kind uid = .ok e) ∧
    (e.uid = "" → uid = uuid_to_string u ∧
      ((∀ x ∈ c.elements e.kind, x.uid ≠ uid) →
        (c.upsert e u).1.get e.kind uid = .ok (e.with_uid uid))) := by
  constructor
  · intro hne
    by_cases hsome : ∃ x ∈ c.elements e.kind, x.uid = e.uid
    · obtain ⟨l1, x, l2, _, hno, _, hres, hel, _⟩ := upsert_known_state c e u hne hsome
      rw [hres] at hok
      cases hok
      exact ⟨rfl, get_first _ _ _ l1 l2 e hel hno rfl⟩
    · have hno : ∀ x ∈ c.elements e.kind, x.uid ≠ e.uid := fun x hx hxu => hsome ⟨x, hx, hxu⟩
      rw [upsert_unknown_state c e u hne hno] at hok
      cases hok
  · intro he
    obtain ⟨hres, hel, _⟩ := upsert_new_state c e u he
    rw [hres] at hok
    cases hok
    refine ⟨rfl, ?_⟩
    intro hfresh
    exact get_first _ _ _ (c.elements e.kind) [] _ hel hfresh
      (with_uid_frame e (uuid_to_string u)).1

/-- A new version of a note stored under the uid two notes share: `get_after_upsert`
applies, and the lookup returns the new version. -/
theorem get_after_upsert_witness :
    ((container.mk [] [⟨"n", "a", "", "x"⟩, ⟨"n", "b", "", "y"⟩] [] []).upsert
      (.note ⟨"n", "A", "work", "X"⟩) sample_uuid).1.get .note "n" =
        .ok (.note ⟨"n", "A", "work", "X"⟩) :=
  ((get_after_upsert ⟨[], [⟨"n", "a", "", "x"⟩, ⟨"n", "b", "", "y"⟩], [], []⟩
    (.note ⟨"n", "A", "work", "X"⟩) sample_uuid "n" (by decide)).1 (by decide)).2

/-- C24. A `load` that succeeds replaces what the store held: for every state before the
call, each of the four vectors holds afterwards exactly the records loaded from the
elements of the corresponding child of the document, one for each element and in the
order of the document, every one of them loaded without exception; the state after the
call is the same whatever the state before. -/
theorem load_replaces (X : Extern) (c : container) (password input : Bytes)
    (h : (c.load X password input).2 = .ok ()) :
    ∃ tree s1 s2 s3 s4, X.read_json (aes.decrypt X password input) = some tree ∧
      tree.get_child "logins" = .ok s1 ∧ tree.get_child "notes" = .ok s2 ∧
      tree.get_child "files" = .ok s3 ∧ tree.get_child "contacts" = .ok s4 ∧
      (c.load X password input).1 =
        { logins := s1.children.map (fun value =>
            (login_type.load X login_type.init value.2).1),
          notes := s2.children.map (fun value => (note_type.load note_type.init value.2).1),
          files := s3.children.map (fun value => (file_type.load file_type.init value.2).1),
          contacts := s4.children.map (fun value =>
            (contact_type.load contact_type.init value.2).1) } ∧
      (∀ value ∈ s1.children, (login_type.load X login_type.init value.2).2 = .ok ()) ∧
      (∀ value ∈ s2.children, (note_type.load note_type.init value.2).2 = .ok ()) ∧
      (∀ value ∈ s3.children, (file_type.load file_type.init value.2).2 = .ok ()) ∧
      (∀ value ∈ s4.children, (contact_type.load contact_type.init value.2).2 = .ok ()) ∧
      ∀ c2 : container, c2.load X password input = c.load X password input := by
  rcases load_outcome X c password input with ⟨_, hl⟩ | ⟨tree, hr, hst, ⟨hok, _⟩ | ⟨_, herr⟩⟩
  · rw [hl] at h
    cases h
  · obtain ⟨hstate, ⟨s1, g1, f1⟩, ⟨s2, g2, f2⟩, ⟨s3, g3, f3⟩, ⟨s4, g4, f4⟩⟩ :=
      load_tree_ok X container.init tree hok
    refine ⟨tree, s1, s2, s3, s4, hr, g1, g2, g3, g4, ?_, f1, f2, f3, f4, fun _ => rfl⟩
    rw [hst, hstate]
    simp only [attempted, g1, g2, g3, g4, container.init, List.nil_append]
  · rw [herr] at h
    cases h

/-- A store with a login loads a document of two notes: `load_replaces` applies, and the
login is gone. -/
theorem load_replaces_witness :
    ∃ tree s1 s2 s3 s4,
      (test_double [1] (some duplicate_uid_tree)).read_json
        (aes.decrypt (test_double [1] (some duplicate_uid_tree)) [] [1]) = some tree ∧
      tree.get_child "logins" = .ok s1 ∧ tree.get_child "notes" = .ok s2 ∧
      tree.get_child "files" = .ok s3 ∧ tree.get_child "contacts" = .ok s4 ∧
      (sample_store.load (test_double [1] (some duplicate_uid_tree)) [] [1]).1 =
        { logins := s1.children.map (fun value =>
            (login_type.load (test_double [1] (some duplicate_uid_tree)) login_type.init
              value.2).1),
          notes := s2.children.map (fun value => (note_type.load note_type.init value.2).1),
          files := s3.children.map (fun value => (file_type.load file_type.init value.2).1),
          contacts := s4.children.map (fun value =>
            (contact_type.load contact_type.init value.2).1) } ∧
      (∀ value ∈ s1.children,
        (login_type.load (test_double [1] (some duplicate_uid_tree)) login_type.init
          value.2).2 = .ok ()) ∧
      (∀ value ∈ s2.children, (note_type.load note_type.init value.2).2 = .ok ()) ∧
      (∀ value ∈ s3.children, (file_type.load file_type.init value.2).2 = .ok ()) ∧
      (∀ value ∈ s4.children, (contact_type.load contact_type.init value.2).2 = .ok ()) ∧
      ∀ c2 : container, c2.load (test_double [1] (some duplicate_uid_tree)) [] [1] =
        sample_store.load (test_double [1] (some duplicate_uid_tree)) [] [1] :=
  load_replaces (test_double [1] (some duplicate_uid_tree)) sample_store [] [1] (by decide)

/-! ## Records to trees and back -/

/-- C23. For every record of each of the four kinds, `save` builds a tree whose keys are
exactly the keys of the kind, in the order `load` reads them, and `load` of that tree
into a fresh record returns without exception and gives the record back in every member
that is persisted: the whole record for a login (whose time reads back from its textual
form), a note and a contact, and the record with an empty `mapped_file` for a file. -/
theorem record_save_load (X : Extern) (l : login_type) (n : note_type) (f : file_type)
    (k : contact_type)
    (htime : X.ptime_of_string (X.ptime_to_string l.last_change) = some l.last_change) :
    ((l.save X).children.map Prod.fst = login_fields ∧
      login_type.load X login_type.init (l.save X) = (l, .ok ())) ∧
    (n.save.children.map Prod.fst = note_fields ∧
      note_type.load note_type.init n.save = (n, .ok ())) ∧
    (f.save.children.map Prod.fst = file_fields ∧
      file_type.load file_type.init f.save = ({ f with mapped_file := "" }, .ok ())) ∧
    (k.save.children.map Prod.fst = contact_fields ∧
      contact_type.load contact_type.init k.save = (k, .ok ())) := by
  refine ⟨⟨?_, login_load_of_save X l login_type.init htime⟩,
    ⟨?_, note_load_of_save n note_type.init⟩, ⟨?_, file_load_of_save f file_type.init⟩,
    ⟨?_, contact_load_of_save k contact_type.init⟩⟩
  · simp [login_type.save, login_fields, ptree.put, ptree.init, ptree.children, put_first]
  · simp [note_type.save, note_fields, ptree.put, ptree.init, ptree.children, put_first]
  · simp [file_type.save, file_fields, ptree.put, ptree.init, ptree.children, put_first]
  · simp [contact_type.save, contact_fields, ptree.put, ptree.init, ptree.children,
      put_first]

/-- A login whose time has a textual form in the stand-in library: `record_save_load`
applies. -/
theorem record_save_load_witness :
    login_type.load (test_double [] none) login_type.init
        ((login_type.mk "l1" "mail" "" "jane" "secret" "" ⟨0⟩).save (test_double [] none)) =
      (login_type.mk "l1" "mail" "" "jane" "secret" "" ⟨0⟩, .ok ()) :=
  (record_save_load (test_double [] none) ⟨"l1", "mail", "", "jane", "secret", "", ⟨0⟩⟩
    note_type.init file_type.init contact_type.init (by decide)).1.2

/-! ## Passwords with the same key -/

theorem create_key_of_take (p q : Bytes) (h : p.take 32 = q.take 32) :
    aes.create_key p = aes.create_key q := by
  have hlen : min 32 p.length = min 32 q.length := by
    have := congrArg List.length h
    simpa [List.length_take] using this
  unfold aes.create_key
  rw [h]
  congr 2
  omega

theorem create_key_trailing_zeros (p : Bytes) (k : Nat) (h : p.length + k ≤ 32) :
    aes.create_key (p ++ List.replicate k 0) = aes.create_key p := by
  unfold aes.create_key
  rw [List.take_of_length_le (by simp; omega), List.take_of_length_le (by omega),
    List.append_assoc, ← List.replicate_add]
  congr 2
  simp
  omega

/-- C27. Key derivation is not injective: two passwords with the same first 32 bytes, and
a password of fewer than 32 bytes and the same password followed by zero bytes up to 32
in all, such as "abc" and "abc" with a zero byte, have the same key; two passwords with
the same key are encrypted and decrypted alike, and a store saved under one is loaded
under the other as under the first. -/
theorem same_key (X : Extern) (p q : Bytes) :
    (p.take 32 = q.take 32 → aes.create_key p = aes.create_key q) ∧
    (∀ k, p.length + k ≤ 32 → aes.create_key (p ++ List.replicate k 0) = aes.create_key p) ∧
    aes.create_key [97, 98, 99] = aes.create_key [97, 98, 99, 0] ∧
    (aes.create_key p = aes.create_key q →
      ∀ (input : Bytes) (c : container),
        aes.encrypt X p input = aes.encrypt X q input ∧
        aes.decrypt X p input = aes.decrypt X q input ∧
        c.save X p = c.save X q ∧ c.load X p input = c.load X q input) := by
  refine ⟨create_key_of_take p q, fun k hk => create_key_trailing_zeros p k hk, by decide, ?_⟩
  intro h input c
  have he : ∀ text, aes.encrypt X p text = aes.encrypt X q text := by
    intro text
    unfold aes.encrypt
    rw [h]
  have hd : aes.decrypt X p input = aes.decrypt X q input := by
    unfold aes.decrypt
    rw [h]
  refine ⟨he input, hd, ?_, ?_⟩
  · unfold container.save
    exact he _
  · unfold container.load
    rw [hd]

/-! ## Generated passwords -/

theorem alphanumeric_base :
    ∀ c ∈ "abcdefghijklmnopqrstuvwxyzABCDEFGHIJKLMNOPQRSTUVWXYZ1234567890".data,
      c.isAlpha = true ∨ c.isDigit = true := by
  decide

theorem generate_password_mem (length : Nat) (special_characters : String) (rng : Nat → Nat)
    (c : Char) (hc : c ∈ (auxiliary.generate_password length special_characters rng).data) :
    c ∈ "abcdefghijklmnopqrstuvwxyzABCDEFGHIJKLMNOPQRSTUVWXYZ1234567890".data ∨
      c ∈ special_characters.data := by
  simp only [auxiliary.generate_password, List.mem_map, List.mem_range] at hc
  obtain ⟨k, _, hk⟩ := hc
  have hlt : rng k %
      ("abcdefghijklmnopqrstuvwxyzABCDEFGHIJKLMNOPQRSTUVWXYZ1234567890" ++
        special_characters).length <
      ("abcdefghijklmnopqrstuvwxyzABCDEFGHIJKLMNOPQRSTUVWXYZ1234567890" ++
        special_characters).data.length := by
    have hb : "abcdefghijklmnopqrstuvwxyzABCDEFGHIJKLMNOPQRSTUVWXYZ1234567890".length = 62 :=
      by decide
    rw [String.length_data]
    apply Nat.mod_lt
    rw [String.length_append, hb]
    omega
  rw [List.getD_eq_getElem _ _ hlt] at hk
  have hmem := List.getElem_mem hlt
  rw [hk, String.data_append, List.mem_append] at hmem
  exact hmem

/-- C22. For every length, every string of special characters and everything the random
source gives, `generate_password` returns a string of exactly `length` characters, each a
letter a-z or A-Z, a digit 0-9 or one of the special characters; with the empty string of
special characters every character is a letter or a digit. -/
theorem generate_password_alphabet (length : Nat) (special_characters : String)
    (rng : Nat → Nat) :
    (auxiliary.generate_password length special_characters rng).length = length ∧
    (∀ c ∈ (auxiliary.generate_password length special_characters rng).data,
      c.isAlpha = true ∨ c.isDigit = true ∨ c ∈ special_characters.data) ∧
    (∀ c ∈ (auxiliary.generate_password length "" rng).data,
      c.isAlpha = true ∨ c.isDigit = true) := by
  refine ⟨?_, ?_, ?_⟩
  · show ((List.range length).map _).length = length
    rw [List.length_map, List.length_range]
  · intro c hc
    rcases generate_password_mem length special_characters rng c hc with h | h
    · rcases alphanumeric_base c h with h1 | h1
      · exact Or.inl h1
      · exact Or.inr (Or.inl h1)
    · exact Or.inr (Or.inr h)
  · intro c hc
    rcases generate_password_mem length "" rng c hc with h | h
    · exact alphanumeric_base c h
    · simp at h

/-! ## Padding of arbitrary text -/

/-- C28. The text "====" is counted as four characters of padding, and three bytes are
decoded from it: `base64::decode` erases from before the first byte of its output, which
is undefined. With one `=` in front of three other characters the count is one and the
erase stays inside. -/
theorem decode_padding_overrun :
    base64.padding "====" = 4 ∧ base64.decoded "====" = .ok [0, 0, 0] ∧
    base64.decode "====" = .error .undefined_behaviour ∧
    base64.padding "=AAA" = 1 ∧ base64.decode "=AAA" = .ok [0, 0] := by
  decide

/-! ## Erasing a file that cannot be written -/

/-- While writes succeed, the file holds after the rounds the buffer of the last round. -/
theorem overwrite_written (filename : String) (file_length : Nat) (noise : Nat → Nat → Nat)
    (iterations round : Nat) (d : disk) (hw : filename ∉ d.no_write) :
    (auxiliary.overwrite filename file_length noise (iterations + 1) round d).read filename =
      some (auxiliary.random_data file_length (noise (round + iterations))) := by
  induction iterations generalizing round d with
  | zero =>
    simp only [auxiliary.overwrite, if_neg hw, Nat.add_zero]
    exact read_put _ _ _
  | succ n ih =>
    have h := ih (round + 1)
      (d.put filename (auxiliary.random_data file_length (noise round))) hw
    rw [show round + 1 + n = round + (n + 1) by omega] at h
    rw [← h]
    conv => lhs; unfold auxiliary.overwrite
    rw [if_neg hw]

/-- The rounds of the loop one after the other: `a + b` rounds are `a` rounds and then
`b` rounds. -/
theorem overwrite_add (filename : String) (file_length : Nat) (noise : Nat → Nat → Nat)
    (a b round : Nat) (d : disk) :
    auxiliary.overwrite filename file_length noise (a + b) round d =
      auxiliary.overwrite filename file_length noise b (round + a)
        (auxiliary.overwrite filename file_length noise a round d) := by
  induction a generalizing round d with
  | zero => simp [auxiliary.overwrite]
  | succ n ih =>
    rw [show n + 1 + b = (n + b) + 1 by omega]
    simp only [auxiliary.overwrite]
    rw [ih, show round + 1 + n = round + (n + 1) by omega]

/-- C21. The claim has `secure_erase` fail whenever a write of a round fails, and return
only after every round was written in full. The file "secret.txt" can be opened and
removed and no write to it succeeds: `secure_erase` with three rounds leaves its bytes as
they were in every round, removes the file and returns without exception. On the same
file system a file that cannot be opened, and this file when it cannot be removed, give
the file access error, and where the writes succeed the three rounds leave the buffer of
the last round in the file. -/
theorem secure_erase_write_unchecked :
    locked_disk.read "secret.txt" = some [115, 101, 99] ∧
    "secret.txt" ∈ locked_disk.no_write ∧
    auxiliary.overwrite "secret.txt" 3 (fun _ _ => 0) 3 0 locked_disk = locked_disk ∧
    auxiliary.secure_erase locked_disk "secret.txt" 3 (fun _ _ => 0) =
      ({ locked_disk with files := [] }, .ok ()) ∧
    (auxiliary.secure_erase locked_disk "other.txt" 3 (fun _ _ => 0)).2 =
      .error .file_access_error ∧
    (auxiliary.secure_erase { locked_disk with no_remove := ["secret.txt"] } "secret.txt" 3
      (fun _ _ => 0)).2 = .error .file_access_error ∧
    (auxiliary.overwrite "secret.txt" 3 (fun _ _ => 0) 3 0
      { locked_disk with no_write := [] }).read "secret.txt" = some [0, 0, 0] := by
  decide

end walley
